import Mathlib

/-!
Verification of the asset-graph-layout-v2 model-graph engine
(`js_modules/dagster-ui/packages/ui-core/src/asset-graph-layout-v2`).

The TypeScript worker turns a raw dependency graph (`GraphData`) into a
hierarchical `ModelGraph` (GraphPreprocessor.ts), splits oversized groups,
aggregates descendant statistics, and serves expand/collapse/relayout
requests against a process-wide cache.

Shallow embedding notes:
* JavaScript objects are mutable and aliased, so the embedding uses an
  explicit heap: `ModelGraph.store` is the heap (a node's "reference" is its
  index in `store`), while `nodes`, `rootNodes` and `nodesById` hold
  references into it, exactly as the TS fields hold object references.
* `Record<string, T>` is an insertion-ordered association list whose `set`
  overwrites in place and whose `delete` removes the key.
* Functions that can recurse unboundedly in JS (queue/DFS traversals over a
  possibly-cyclic heap) take an explicit fuel argument; all theorems hold for
  every fuel unless stated otherwise.
* `Number.MAX_VALUE` / `Number.NEGATIVE_INFINITY` appear only as sentinels of
  the descendant-count statistics, never in arithmetic other than min/max
  against an array length, so they are embedded as dedicated constructors of
  `JsNum`; an array length is always below `Number.MAX_VALUE`.
-/

/-- Node types in a model graph (common/ModelGraph.ts `NodeType`). -/
inductive NodeType where
  | assetNode
  | groupNode
deriving DecidableEq, Repr

/-- A directed edge between two asset node ids (common/types.ts `Edge`). -/
structure Edge where
  sourceNodeId : String
  targetNodeId : String
deriving DecidableEq, Repr

/-- A node of the model graph.  The TS source splits this into `AssetNode`
and `GroupNode` extending `ModelNodeBase`; we use one flat structure with a
`nodeType` discriminant, mirroring how the untagged JS objects carry whatever
fields were assigned.  `nodeNamespace` embeds the TS field `namespace` (a
Lean keyword).  Geometry fields other than `width`/`height` are never read by
the code under verification and are omitted. -/
structure ModelNode where
  nodeType : NodeType
  id : String
  nodeNamespace : String
  level : Nat
  parentId : Option String := none
  incomingEdges : Option (List Edge) := none
  outgoingEdges : Option (List Edge) := none
  hideInLayout : Bool := false
  childrenIds : Option (List String) := none
  descendantsNodeIds : Option (List String) := none
  descendantsAssetNodeIds : Option (List String) := none
  expanded : Bool := false
  sectionContainer : Bool := false
  width : Option Nat := none
  height : Option Nat := none
deriving DecidableEq, Repr

/-- Stand-in node used when dereferencing an invalid heap reference, which
cannot happen in JS (object references are always valid) and does not happen
in any state the processor constructs.  It is a hidden asset node, so every
traversal ignores it. -/
def defaultModelNode : ModelNode :=
  { nodeType := .assetNode, id := "", nodeNamespace := "", level := 0,
    hideInLayout := true }

/-- The JS numbers reachable in the descendant-count statistics: `-1` (the
initial value from `createEmptyModelGraph`), plain array lengths,
`Number.MAX_VALUE` and `Number.NEGATIVE_INFINITY`. -/
inductive JsNum where
  | finite (i : Int)
  | maxValue
  | negInfinity
deriving DecidableEq, Repr

/-- `Math.min(n, v)` for an array length `n` (which is always below
`Number.MAX_VALUE`). -/
def jsMinCount (n : Nat) : JsNum → JsNum
  | .finite i => if (n : Int) ≤ i then .finite n else .finite i
  | .maxValue => .finite n
  | .negInfinity => .negInfinity

/-- `Math.max(n, v)` for an array length `n`. -/
def jsMaxCount (n : Nat) : JsNum → JsNum
  | .finite i => if i ≤ (n : Int) then .finite n else .finite i
  | .maxValue => .maxValue
  | .negInfinity => .finite n

/-- The `≤` order on the reachable JS numbers
(`negInfinity < finite i < maxValue`). -/
def jsLe : JsNum → JsNum → Bool
  | .negInfinity, _ => true
  | _, .maxValue => true
  | .finite i, .finite j => i ≤ j
  | _, _ => false

/-- The model graph (common/ModelGraph.ts `ModelGraph`).  `store` is the
object heap; `nodes`, `rootNodes` hold references (indices into `store`) and
`nodesById` maps an id to a reference.  `edgesByGroupNodeIds` keeps only the
key set: its values (per-group edge geometry) are written solely by the
external layout collaborator and read by nothing under verification. -/
structure ModelGraph where
  id : String
  store : List ModelNode
  nodes : List Nat
  nodesById : List (String × Nat)
  rootNodes : List Nat
  artificialGroupNodeIds : Option (List String) := none
  edgesByGroupNodeIds : List String := []
  layoutGraphEdges : List (String × List (String × List String)) := []
  minDescendantAssetNodeCount : JsNum
  maxDescendantAssetNodeCount : JsNum
deriving DecidableEq, Repr

/-- A node of the raw input graph.  The real `GraphData` node carries asset
metadata consumed only by `groupIdForNode`; we keep the id and the value that
function derives. -/
structure GraphNode where
  id : String
  groupName : String
deriving DecidableEq, Repr

/-- The raw input graph (asset-graph/Utils.ts `GraphData`): a keyed node set
plus an upstream adjacency map.  `nodes` is `Object.values(graph.nodes)` in
iteration order; `upstream` maps a node id to `Object.keys(upstream[id])` in
iteration order.  The `downstream` map is never read by the worker code. -/
structure GraphData where
  nodes : List GraphNode
  upstream : List (String × List String)
deriving DecidableEq, Repr

/-- Modelled from the spec: `groupIdForNode` (asset-graph/Utils.ts, not under
src/) — the input graph source "supplies ... a namespace-derivation function
per node"; we model it as reading the node's group name. -/
def groupIdForNode (n : GraphNode) : String := n.groupName

/-- First value bound to a key in an association list (JS `record[key]`). -/
def lookupAssoc {α : Type} (m : List (String × α)) (k : String) : Option α :=
  (m.find? (fun p => p.1 = k)).map (·.2)

/-- JS `record[key] = v`: overwrite in place if the key exists, else append
(records preserve insertion order). -/
def recordSet {α : Type} (m : List (String × α)) (k : String) (v : α) :
    List (String × α) :=
  if m.any (fun p => p.1 = k) then
    m.map (fun p => if p.1 = k then (k, v) else p)
  else
    m ++ [(k, v)]

/-- JS `delete record[key]`. -/
def recordDelete {α : Type} (m : List (String × α)) (k : String) :
    List (String × α) :=
  m.filter (fun p => ¬ p.1 = k)

/-- `Array.prototype.splice` after `indexOf`: remove the first occurrence. -/
def removeFirst (l : List Nat) (r : Nat) : List Nat :=
  match l with
  | [] => []
  | x :: xs => if x = r then xs else x :: removeFirst xs r

/-- Whether `pat` is an initial segment of the character list. -/
def listStartsWith : List Char → List Char → Bool
  | [], _ => true
  | _ :: _, [] => false
  | p :: ps, c :: cs => p = c && listStartsWith ps cs

/-- Split a character list around the first occurrence of `pat`, returning
the parts before and after it (`none` when `pat` does not occur).
Structurally recursive so that concrete Partitioner runs evaluate inside the
kernel (`String.splitOn` is defined by well-founded recursion and does
not). -/
def splitFirst (pat : List Char) : List Char → Option (List Char × List Char)
  | [] => if pat = [] then some ([], []) else none
  | c :: cs =>
    if listStartsWith pat (c :: cs) then
      some ([], (c :: cs).drop pat.length)
    else
      match splitFirst pat cs with
      | some pq => some (c :: pq.1, pq.2)
      | none => none

/-- JS `String.prototype.replace` with a string pattern: replace only the
first occurrence, no change if the pattern does not occur.  (Lean's
`String.replace` replaces every occurrence.) -/
def replaceFirst (s pat repl : String) : String :=
  match splitFirst pat.data s.data with
  | some pq => ⟨pq.1 ++ repl.data ++ pq.2⟩
  | none => s

/-- JS `String.prototype.split` with a one-character separator, over the
character list. -/
def splitOnChar (sep : Char) : List Char → List (List Char)
  | [] => [[]]
  | c :: cs =>
    if c = sep then [] :: splitOnChar sep cs
    else
      match splitOnChar sep cs with
      | [] => [[c]]
      | p :: ps => (c :: p) :: ps

/-- `namespace.split('/').filter((c) => c !== '').length`
(GraphPreprocessor.ts:270). -/
def namespaceLevel (ns : String) : Nat :=
  ((splitOnChar '/' ns.data).filter (fun p => ¬ p = [])).length

/-- Resolve an id through `nodesById`; the reference must be a valid heap
index (object references always are in JS). -/
def ModelGraph.lookupRef (g : ModelGraph) (k : String) : Option Nat :=
  match lookupAssoc g.nodesById k with
  | none => none
  | some r => if r < g.store.length then some r else none

/-- Dereference a heap reference. -/
def ModelGraph.getN (g : ModelGraph) (r : Nat) : ModelNode :=
  (g.store.get? r).getD defaultModelNode

/-- Overwrite the heap cell behind a reference. -/
def ModelGraph.setStoreAt (g : ModelGraph) (r : Nat) (n : ModelNode) :
    ModelGraph :=
  { g with store := g.store.set r n }

/-- Mutate the node object behind a reference. -/
def ModelGraph.modifyNode (g : ModelGraph) (r : Nat)
    (f : ModelNode → ModelNode) : ModelGraph :=
  match g.store.get? r with
  | some n => { g with store := g.store.set r (f n) }
  | none => g

/-- `modelGraph.nodes.push(node); modelGraph.nodesById[node.id] = node`:
allocate the object and register it; returns the new reference. -/
def ModelGraph.addNodeR (g : ModelGraph) (n : ModelNode) :
    ModelGraph × Nat :=
  let r := g.store.length
  ({ g with
      store := g.store ++ [n],
      nodes := g.nodes ++ [r],
      nodesById := recordSet g.nodesById n.id r }, r)

/-! ## Model Builder (GraphProcessor.processNodes / processEdgeRelationships) -/

/-- `GraphProcessor.createEmptyModelGraph` (GraphPreprocessor.ts:361-372). -/
def createEmptyModelGraph : ModelGraph :=
  { id := "<ROOT>",
    store := [], nodes := [], nodesById := [], rootNodes := [],
    artificialGroupNodeIds := none,
    edgesByGroupNodeIds := [], layoutGraphEdges := [],
    minDescendantAssetNodeCount := .finite (-1),
    maxDescendantAssetNodeCount := .finite (-1) }

/-- One iteration of the `GraphProcessor.processNodes` loop
(GraphPreprocessor.ts:46-71): create the `AssetNode`, then (unless the asset
is hidden or layers are flattened) create the namespace `GroupNode` the first
time its group id is seen. -/
def processOneNode (flattenLayers : Bool) (st : ModelGraph × List String)
    (gn : GraphNode) : ModelGraph × List String :=
  let g := st.1
  let seenGroups := st.2
  let group := groupIdForNode gn
  let assetNode : ModelNode :=
    { nodeType := .assetNode, id := gn.id, level := 1,
      nodeNamespace := group ++ "/" ++ gn.id }
  let g := (g.addNodeR assetNode).1
  if !assetNode.hideInLayout && !flattenLayers then
    if group ∈ seenGroups then (g, seenGroups)
    else
      let groupNode : ModelNode :=
        { nodeType := .groupNode, id := group, level := 0,
          expanded := false, nodeNamespace := group }
      ((g.addNodeR groupNode).1, group :: seenGroups)
  else (g, seenGroups)

/-- `GraphProcessor.processNodes` (GraphPreprocessor.ts:44-72). -/
def processNodes (flattenLayers : Bool) (graph : GraphData)
    (g : ModelGraph) : ModelGraph :=
  (graph.nodes.foldl (processOneNode flattenLayers) (g, [])).1

/-- The incoming-edge registration of GraphPreprocessor.ts:98-104: push the
edge unless an edge with the same source id is already present. -/
def addIncoming (s tid : String) (node : ModelNode) : ModelNode :=
  let inc := node.incomingEdges.getD []
  let inc' :=
    if inc.any (fun e => e.sourceNodeId = s) then inc
    else inc ++ [{ sourceNodeId := s, targetNodeId := tid }]
  { node with incomingEdges := some inc' }

/-- The outgoing-edge registration of GraphPreprocessor.ts:106-115: push the
edge unless an edge with the same target id is already present. -/
def addOutgoing (s nid : String) (sourceNode : ModelNode) : ModelNode :=
  let out := sourceNode.outgoingEdges.getD []
  let out' :=
    if out.any (fun e => e.targetNodeId = nid) then out
    else out ++ [{ targetNodeId := nid, sourceNodeId := s }]
  { sourceNode with outgoingEdges := some out' }

/-- Processing of one upstream neighbor `s` of the graph node resolved to
reference `nr` (GraphPreprocessor.ts:88-116): register the incoming edge on
the node and the matching outgoing edge on the source, each side only if not
already present (de-duplication by neighbor id). -/
def processPair (tid : String) (nr : Nat) (g : ModelGraph) (s : String) :
    ModelGraph :=
  match g.lookupRef s with
  | none => g
  | some sr =>
    let g1 := g.modifyNode nr (addIncoming s tid)
    -- `targetNodeId: node.id` in the source reads the node object's id,
    -- which edge updates never change.
    let nid := (g1.getN nr).id
    g1.modifyNode sr (addOutgoing s nid)

/-- The `processEdgeRelationships` loop body for one graph node
(GraphPreprocessor.ts:78-117): skip the node if it is not in the index, else
process each of its upstream neighbors. -/
def processEdgesForNode (graph : GraphData) (g : ModelGraph)
    (gn : GraphNode) : ModelGraph :=
  match g.lookupRef gn.id with
  | none => g
  | some nr =>
    let incomingIds := (lookupAssoc graph.upstream gn.id).getD []
    incomingIds.foldl (processPair gn.id nr) g

/-- `GraphProcessor.processEdgeRelationships` (GraphPreprocessor.ts:77-118). -/
def processEdgeRelationships (graph : GraphData) (g : ModelGraph) :
    ModelGraph :=
  graph.nodes.foldl (processEdgesForNode graph) g

/-! ## Layout-Connectivity Generator (generateLayoutGraphConnections) -/

/-- `hideInLayout` of the node an id resolves to
(`(modelGraph.nodesById[edge.sourceNodeId] as AssetNode).hideInLayout`,
GraphPreprocessor.ts:133).  An unresolvable source id cannot occur in the
graphs the builder produces (dangling input edges are dropped); we treat it
as not hidden. -/
def ModelGraph.hideOf (g : ModelGraph) (k : String) : Bool :=
  match g.lookupRef k with
  | some r => (g.getN r).hideInLayout
  | none => false

/-- The root collection loop of `generateLayoutGraphConnections`
(GraphPreprocessor.ts:127-138): the (references of the) asset nodes that are
not hidden and have no incoming edge from a non-hidden source. -/
def layoutRootRefs (g : ModelGraph) : List Nat :=
  g.nodes.filter (fun r =>
    let n := g.getN r
    n.nodeType = .assetNode && !n.hideInLayout &&
      ((n.incomingEdges.getD []).filter
        (fun e => !g.hideOf e.sourceNodeId)).isEmpty)

/-- All node ids present on the heap; its size bounds the number of
first-time BFS visits. -/
def idUniverse (g : ModelGraph) : List String :=
  g.store.map (·.id)

/-- Pop queue entries until the first processable one: skip `undefined`
entries, hidden nodes and already-seen ids (GraphPreprocessor.ts:144-150).
Returns the reference of the next node to visit and the rest of the queue. -/
def bfsDequeue (g : ModelGraph) :
    List (Option Nat) → List String → Option (Nat × List (Option Nat))
  | [], _ => none
  | o :: rest, seen =>
    match o with
    | none => bfsDequeue g rest seen
    | some r =>
      match g.store.get? r with
      | none => bfsDequeue g rest seen
      | some n =>
        if n.hideInLayout then bfsDequeue g rest seen
        else if n.id ∈ seen then bfsDequeue g rest seen
        else some (r, rest)

/-- The BFS loop of `generateLayoutGraphConnections`
(GraphPreprocessor.ts:141-158): record the node id as seen and enqueue the
(references resolved from the) targets of its outgoing edges.  `fuel` bounds
the number of first-time visits; `idUniverse.length + 1` always suffices. -/
def bfsRun (g : ModelGraph) :
    Nat → List (Option Nat) → List String → List String
  | 0, _, seen => seen
  | fuel + 1, queue, seen =>
    match bfsDequeue g queue seen with
    | none => seen
    | some (r, rest) =>
      let n := g.getN r
      bfsRun g fuel
        (rest ++ (n.outgoingEdges.getD []).map
          (fun e => g.lookupRef e.targetNodeId))
        (n.id :: seen)

/-- The set of node ids the BFS of `generateLayoutGraphConnections` marks as
seen. -/
def bfsVisits (g : ModelGraph) : List String :=
  bfsRun g ((idUniverse g).length + 1) ((layoutRootRefs g).map some) []

/-- `GraphProcessor.generateLayoutGraphConnections`
(GraphPreprocessor.ts:123-159).  The function clears `layoutGraphEdges`,
computes the roots and runs the BFS, but its seen-set is a local variable
that is never written anywhere: the only observable effect is the reset. -/
def generateLayoutGraphConnections (g : ModelGraph) : ModelGraph :=
  let g' := { g with layoutGraphEdges := [] }
  let _seenNodeIds := bfsVisits g'
  g'

/-! ## Group Partitioner (splitLargeGroupNodes) -/

/-- The layout subgraph handed back by `getLayoutGraph`: node ids plus
incoming/outgoing adjacency, with an entry only for nodes that have at least
one edge (the splitter tests `layoutGraph.incomingEdges[nodeId] == null`). -/
structure LayoutGraph where
  nodes : List String
  incomingEdges : List (String × List String)
  outgoingEdges : List (String × List String)
deriving DecidableEq, Repr

/-- Modelled from the spec: `getLayoutGraph` (worker/GraphLayout.ts, not
under src/) — §4.3 step 3: "build a layout-connectivity subgraph restricted
to these children (using synthetic/approximate sizing ...)".  We model the
subgraph as: its nodes are the children's ids, and it has an edge u → v
exactly when child u records an outgoing model edge to child v.  (Sizing is
geometry and does not affect connectivity.) -/
def getLayoutGraph (g : ModelGraph) (children : List Nat) : LayoutGraph :=
  let childNodes := children.map g.getN
  let ids := childNodes.map (·.id)
  let outs := childNodes.map (fun n =>
    (n.id, ((n.outgoingEdges.getD []).map (·.targetNodeId)).filter
      (fun t => t ∈ ids)))
  let ins := childNodes.map (fun n =>
    (n.id, ((n.incomingEdges.getD []).map (·.sourceNodeId)).filter
      (fun t => t ∈ ids)))
  { nodes := ids,
    incomingEdges := ins.filter (fun p => !p.2.isEmpty),
    outgoingEdges := outs.filter (fun p => !p.2.isEmpty) }

/-- State of the bucketing DFS of `splitLargeGroupNodes`
(GraphPreprocessor.ts:198-200): the visited-id set, the bucket being filled
(node references) and the finished buckets. -/
structure DfsState where
  visitedNodeIds : List String
  curGroup : List Nat
  groups : List (List Nat)
deriving Repr

/-- The recursive `visit` closure (GraphPreprocessor.ts:201-215): push the
node onto the current bucket, flush the bucket when it reaches exactly the
threshold, then recurse into the layout-graph successors.  The node lookup
`modelGraph.nodesById[curNodeId]!` always succeeds for the ids of a layout
graph over existing children; an unresolvable id is skipped. -/
def visit (g : ModelGraph) (lg : LayoutGraph) (T : Nat) :
    Nat → String → DfsState → DfsState
  | 0, _, st => st
  | fuel + 1, curNodeId, st =>
    if curNodeId ∈ st.visitedNodeIds then st
    else
      let st := { st with visitedNodeIds := curNodeId :: st.visitedNodeIds }
      match g.lookupRef curNodeId with
      | none => st
      | some r =>
        let st := { st with curGroup := st.curGroup ++ [r] }
        let st :=
          if st.curGroup.length = T then
            { st with groups := st.groups ++ [st.curGroup], curGroup := [] }
          else st
        ((lookupAssoc lg.outgoingEdges curNodeId).getD []).foldl
          (fun st childId => visit g lg T fuel childId st) st

/-- The bucketing phase of one split (GraphPreprocessor.ts:188-221): find the
layout-graph roots (no incoming entry), DFS from each, and keep a trailing
non-empty bucket smaller than the threshold. -/
def makeBuckets (g : ModelGraph) (lg : LayoutGraph) (T dfsFuel : Nat) :
    List (List Nat) :=
  let rootIds := lg.nodes.filter
    (fun nodeId => (lookupAssoc lg.incomingEdges nodeId).isNone)
  let st := rootIds.foldl (fun st nodeId => visit g lg T dfsFuel nodeId st)
    { visitedNodeIds := [], curGroup := [], groups := [] }
  if st.curGroup.length < T ∧ 0 < st.curGroup.length then
    st.groups ++ [st.curGroup]
  else st.groups

/-- The namespace value `updateNamespace` assigns
(GraphPreprocessor.ts:260-269); `isRootScope` is `curGroupNode == null`. -/
def nsNewNamespace (isRootScope : Bool) (newNamespacePart : String)
    (node : ModelNode) : String :=
  if node.nodeNamespace = "" then newNamespacePart
  else if isRootScope then
    newNamespacePart ++ "/" ++ node.nodeNamespace
  else
    replaceFirst (node.parentId.getD "") "___group___" ""

/-- The namespace/level assignments of GraphPreprocessor.ts:260-270. -/
def setNsLevel (isRootScope : Bool) (newNamespacePart : String)
    (node : ModelNode) : ModelNode :=
  { node with
      nodeNamespace := nsNewNamespace isRootScope newNamespacePart node,
      level := namespaceLevel (nsNewNamespace isRootScope newNamespacePart node) }

/-- The id reassignment of GraphPreprocessor.ts:275. -/
def setId (newId : String) (nd : ModelNode) : ModelNode :=
  { nd with id := newId }

/-- The parent's child-list entry replacement of
GraphPreprocessor.ts:279-285 (writing into `(childrenIds || [])` mutates a
fresh array when `childrenIds` is absent, hence the no-op case). -/
def parentChildFix (oldNodeId newId : String) (pn : ModelNode) : ModelNode :=
  match pn.childrenIds with
  | none => pn
  | some cids =>
    match cids.findIdx? (fun c => c = oldNodeId) with
    | some i => { pn with childrenIds := some (cids.set i newId) }
    | none => pn

/-- The child re-pointing of GraphPreprocessor.ts:291. -/
def setParentId (pid : String) (cn : ModelNode) : ModelNode :=
  { cn with parentId := some pid }

/-- The recursive `updateNamespace` closure (GraphPreprocessor.ts:259-297):
rewrite the node's namespace and level; for a group node additionally rename
its id (migrating the `nodesById` entry), patch the parent's child list, and
recurse into its children after re-pointing their `parentId`.
`isRootScope` is `curGroupNode == null`.  A parent or child id that does not
resolve is skipped; in every state the processor maintains these ids resolve
(the JS code dereferences them unconditionally). -/
def updateNamespace (isRootScope : Bool) (newNamespacePart : String) :
    Nat → ModelGraph → Nat → ModelGraph
  | 0, g, _ => g
  | fuel + 1, g, r =>
    match g.store.get? r with
    | none => g
    | some node =>
      let ns' := nsNewNamespace isRootScope newNamespacePart node
      let g := g.setStoreAt r (setNsLevel isRootScope newNamespacePart node)
      if node.nodeType = .groupNode then
        let oldNodeId := node.id
        let g := { g with nodesById := recordDelete g.nodesById oldNodeId }
        let newId := ns' ++ "/" ++ oldNodeId ++ "___group___"
        let g := g.modifyNode r (setId newId)
        let g := { g with nodesById := recordSet g.nodesById newId r }
        let g :=
          match node.parentId with
          | none => g
          | some pid =>
            -- `if (node.parentId)`: the empty string is falsy in JS.
            if pid = "" then g
            else
              match g.lookupRef pid with
              | none => g
              | some pref => g.modifyNode pref (parentChildFix oldNodeId newId)
        (node.childrenIds.getD []).foldl (fun g childId =>
          match g.lookupRef childId with
          | none => g
          | some cref =>
            let g := g.modifyNode cref (setParentId newId)
            updateNamespace isRootScope newNamespacePart fuel g cref) g
      else g

/-- The per-bucket section-creation loop (GraphPreprocessor.ts:223-320):
create the artificial `section_<k>_of_<n>___group___` group, register it,
reparent the bucket members into it, rewrite their namespaces, and maintain
the root-node list when splitting the root scope.  Returns the references of
the created section nodes (`newGroupNodes`). -/
def createSectionsAux (cg : Option Nat) (total unFuel : Nat) :
    List (List Nat) → Nat → ModelGraph → List Nat → ModelGraph × List Nat
  | [], _, g, secRefs => (g, secRefs)
  | bucket :: more, i, g, secRefs =>
    let newGroupNodeNamespace :=
      match cg with
      | none => ""
      | some pr => (g.getN pr).nodeNamespace ++ "/" ++ (g.getN pr).id
    let baseId := "section_" ++ toString (i + 1) ++ "_of_" ++ toString total
    let newGroupNodeId := baseId ++ "___group___"
    let newGroupNode : ModelNode :=
      { nodeType := .groupNode, id := newGroupNodeId,
        nodeNamespace := newGroupNodeNamespace, level := 0,
        parentId := cg.map (fun pr => (g.getN pr).id),
        childrenIds := some (bucket.map (fun r => (g.getN r).id)),
        expanded := false, sectionContainer := true }
    let gr := g.addNodeR newGroupNode
    let g := gr.1
    let newRef := gr.2
    let arti := some ((g.artificialGroupNodeIds.getD []) ++ [newGroupNodeId])
    let g := { g with artificialGroupNodeIds := arti }
    let g := bucket.foldl (fun g r =>
      g.modifyNode r (setParentId newGroupNodeId)) g
    let newNamespacePart := replaceFirst newGroupNodeId "___group___" ""
    let g := bucket.foldl (fun g r =>
      updateNamespace cg.isNone newNamespacePart unFuel g r) g
    let g :=
      match cg with
      | some _ => g
      | none =>
        let g := bucket.foldl (fun g r =>
          { g with rootNodes := removeFirst g.rootNodes r }) g
        if (g.getN newRef).nodeNamespace = "" then
          { g with rootNodes := g.rootNodes ++ [newRef] }
        else g
    createSectionsAux cg total unFuel more (i + 1) g (secRefs ++ [newRef])

/-- The child-list replacement of GraphPreprocessor.ts:322-325. -/
def setChildrenIds (cids : Option (List String)) (nd : ModelNode) :
    ModelNode :=
  { nd with childrenIds := cids }

/-- One iteration of the outer BFS of `splitLargeGroupNodes`
(GraphPreprocessor.ts:170-326) for the dequeued scope `cg` (`none` is the
root scope).  Returns the updated graph, the final `children` (used for
enqueueing) and whether a split happened. -/
def splitStep (T dfsFuel unFuel : Nat) (g : ModelGraph) (cg : Option Nat) :
    ModelGraph × List Nat × Bool :=
  let children : List Nat :=
    match cg with
    | none => g.rootNodes
    | some r => ((g.getN r).childrenIds.getD []).filterMap g.lookupRef
  if children.length > T then
    let lg := getLayoutGraph g children
    let buckets := makeBuckets g lg T dfsFuel
    let gs := createSectionsAux cg buckets.length unFuel buckets 0 g []
    let g := gs.1
    let secRefs := gs.2
    let g :=
      match cg with
      | none => g
      | some r => g.modifyNode r
          (setChildrenIds (some (secRefs.map (fun sr => (gs.1.getN sr).id))))
    (g, secRefs, true)
  else
    (g, children, false)

/-- The outer BFS queue loop of `splitLargeGroupNodes`
(GraphPreprocessor.ts:167-333), threading the `hasLargeGroupNodes` flag. -/
def splitLoop (T dfsFuel unFuel : Nat) :
    Nat → ModelGraph → List (Option Nat) → Bool → ModelGraph × Bool
  | 0, g, _, flag => (g, flag)
  | _ + 1, g, [], flag => (g, flag)
  | fuel + 1, g, cg :: rest, flag =>
    let r := splitStep T dfsFuel unFuel g cg
    let g' := r.1
    let children := r.2.1
    let did := r.2.2
    let newQueue := rest ++
      (children.filter (fun c => (g'.getN c).nodeType = .groupNode)).map some
    splitLoop T dfsFuel unFuel fuel g' newQueue (flag || did)

/-- `GraphProcessor.splitLargeGroupNodes` (GraphPreprocessor.ts:165-338).
`T` is `groupNodeChildrenCountThreshold`; the fuels bound the outer queue
loop, the bucketing DFS and the namespace rewriting (all of which JS runs
without a bound, diverging on cyclic child links). -/
def splitLargeGroupNodes (T loopFuel dfsFuel unFuel : Nat)
    (g : ModelGraph) : ModelGraph :=
  let r := splitLoop T dfsFuel unFuel loopFuel g [none] false
  if r.2 then generateLayoutGraphConnections r.1 else r.1

/-! ## Aggregator (populateDescendantsAndCounts) -/

/-- `GraphProcessor.gatherDescendants` (GraphPreprocessor.ts:374-385),
returning the references appended for the given root: each resolvable child
that is a group node or a non-hidden asset node, with a group's own
descendants inlined right after it. -/
def gatherDescendants (g : ModelGraph) : Nat → Nat → List Nat
  | 0, _ => []
  | fuel + 1, r =>
    ((g.getN r).childrenIds.getD []).foldl (fun acc childId =>
      match g.lookupRef childId with
      | none => acc
      | some cr =>
        let child := g.getN cr
        let acc :=
          if child.nodeType = .groupNode ∨
              (child.nodeType = .assetNode ∧ !child.hideInLayout) then
            acc ++ [cr]
          else acc
        if child.nodeType = .groupNode then
          acc ++ gatherDescendants g fuel cr
        else acc) []

/-- The field assignments of GraphPreprocessor.ts:348-351 on one group
node. -/
def setDescFields (dIds dAssetIds : List String) (nd : ModelNode) :
    ModelNode :=
  { nd with descendantsNodeIds := some dIds,
            descendantsAssetNodeIds := some dAssetIds }

/-- The loop of `populateDescendantsAndCounts` (GraphPreprocessor.ts:344-356)
over the remaining node references, threading the running min/max
accumulators; at the end they are stored on the graph
(GraphPreprocessor.ts:357-358). -/
def populateAux (gatherFuel : Nat) :
    List Nat → ModelGraph → JsNum → JsNum → ModelGraph
  | [], g, minv, maxv =>
    { g with minDescendantAssetNodeCount := minv,
             maxDescendantAssetNodeCount := maxv }
  | r :: rest, g, minv, maxv =>
    if (g.getN r).nodeType = .groupNode then
      let descendants := gatherDescendants g gatherFuel r
      let dIds := descendants.map (fun dr => (g.getN dr).id)
      let dAssetIds :=
        (descendants.filter (fun dr => (g.getN dr).nodeType = .assetNode)).map
          (fun dr => (g.getN dr).id)
      let g := g.modifyNode r (setDescFields dIds dAssetIds)
      let assetNodeCount := dAssetIds.length
      populateAux gatherFuel rest g
        (jsMinCount assetNodeCount minv) (jsMaxCount assetNodeCount maxv)
    else
      populateAux gatherFuel rest g minv maxv

/-- `GraphProcessor.populateDescendantsAndCounts`
(GraphPreprocessor.ts:340-359): local accumulators start at
`Number.MAX_VALUE` / `Number.NEGATIVE_INFINITY`. -/
def populateDescendantsAndCounts (gatherFuel : Nat) (g : ModelGraph) :
    ModelGraph :=
  populateAux gatherFuel g.nodes g .maxValue .negInfinity

/-- `GraphProcessor.process` (GraphPreprocessor.ts:22-38): the fixed phase
order.  Progress notifications are message side effects with no influence on
the graph. -/
def GraphProcessor.process (T : Nat) (flattenLayers : Bool)
    (loopFuel dfsFuel unFuel gatherFuel : Nat) (graph : GraphData) :
    ModelGraph :=
  let modelGraph := createEmptyModelGraph
  let modelGraph := processNodes flattenLayers graph modelGraph
  let modelGraph := processEdgeRelationships graph modelGraph
  let modelGraph := generateLayoutGraphConnections modelGraph
  let modelGraph := splitLargeGroupNodes T loopFuel dfsFuel unFuel modelGraph
  populateDescendantsAndCounts gatherFuel modelGraph

/-- `handleProcessGraph` (GraphPreprocessor.ts:483-512).  The `graphId`
becomes the processor's `paneId`, used only for progress notifications; the
empty-id check and the optional initial layout (external geometry engine,
worker/GraphLayout.ts, not under src/) alter only geometry fields and the
progress-notification payload, never the returned graph's structure.  `T` is
`DEFAULT_GROUP_NODE_CHILDREN_COUNT_THRESHOLD` (common/conts.ts, not under
src/), kept as a parameter. -/
def handleProcessGraph (T loopFuel dfsFuel unFuel gatherFuel : Nat)
    (graphId : String) (graph : GraphData) : ModelGraph :=
  let _paneId := graphId
  GraphProcessor.process T false loopFuel dfsFuel unFuel gatherFuel graph

/-! ## Layout Session Store and Request Router -/

/-- Set the expansion flag on every group node of the graph. -/
def setAllGroupsExpanded (b : Bool) (g : ModelGraph) : ModelGraph :=
  { g with store := g.store.map (fun n =>
      if n.nodeType = .groupNode then { n with expanded := b } else n) }

/-- Modelled from the spec: `getDeepestExpandedGroupNodeIds`
(common/utils.ts, not under src/) — "the deepest group nodes (in terms of
level) that none of its child group nodes is expanded"
(common/WorkerEvents.ts); when a start node is given, restricted to its
descendants.  Its value only flows into response payloads. -/
def getDeepestExpandedGroupNodeIds (g : ModelGraph) (root : Option Nat) :
    List String :=
  let deepest := g.nodes.filter (fun r =>
    let n := g.getN r
    n.nodeType = .groupNode && n.expanded &&
      (n.childrenIds.getD []).all (fun cid =>
        match g.lookupRef cid with
        | some cr =>
          !((g.getN cr).nodeType = .groupNode && (g.getN cr).expanded)
        | none => true))
  let inScope :=
    match root with
    | none => deepest
    | some rr => deepest.filter (fun r =>
        (g.getN r).id ∈ (g.getN rr).descendantsNodeIds.getD [])
  inScope.map (fun r => (g.getN r).id)

/-- Modelled from the spec: `GraphExpander.reLayoutGraph`
(worker/GraphExpander.ts, not under src/) — the expansion/relayout engine
"recomputes which nodes are visible and re-invokes the geometric layout
engine on the affected scope" (§6), "optionally clearing all expansion state
first" (§4.5 Relayout); geometry lies outside this model, so apart from the
optional flag clearing the graph structure is returned unchanged and the
call completes normally. -/
def reLayoutGraph (g : ModelGraph)
    (_targetDeepestGroupNodeIds : Option (List String))
    (clearAllExpandStates : Bool) : ModelGraph :=
  if clearAllExpandStates then setAllGroupsExpanded false g else g

/-- Modelled from the spec: `GraphExpander.expandAllGroups` (not under src/)
— "If no group id is given, the operation means expand every group in the
graph" (§4.5), returning the refreshed deepest-expanded-group ids. -/
def expandAllGroups (g : ModelGraph) : ModelGraph × List String :=
  let g := setAllGroupsExpanded true g
  (g, getDeepestExpandedGroupNodeIds g none)

/-- Modelled from the spec: `GraphExpander.collapseAllGroup` (not under
src/) — "absent group id means collapse everything" (§4.5). -/
def collapseAllGroup (g : ModelGraph) : ModelGraph × List String :=
  let g := setAllGroupsExpanded false g
  (g, getDeepestExpandedGroupNodeIds g none)

/-- Modelled from the spec: `GraphExpander.collapseGroupNode` (not under
src/) — collapse "clears expansion flags ... then delegates to the
collaborator for collapse-specific relayout" (§4.5); it completes normally
and returns the refreshed deepest-expanded-group ids. -/
def collapseGroupNode (g : ModelGraph) (groupNodeId : String) :
    ModelGraph × List String :=
  let g :=
    match g.lookupRef groupNodeId with
    | some r =>
      if (g.getN r).nodeType = .groupNode then
        g.modifyNode r (fun n => { n with expanded := false })
      else g
    | none => g
  (g, getDeepestExpandedGroupNodeIds g none)

/-- The single-child auto-expansion walk of `handleExpandGroupNode`
(GraphPreprocessor.ts:528-542): while the current group has exactly one
child and that child is a group, expand it and descend.  Returns the final
`curGroupNode` reference.  (JS diverges on a cyclic single-child chain; the
fuel ends the walk instead.) -/
def expandChain : Nat → ModelGraph → Nat → ModelGraph × Nat
  | 0, g, cur => (g, cur)
  | fuel + 1, g, cur =>
    match (g.getN cur).childrenIds.getD [] with
    | [cid] =>
      (match g.lookupRef cid with
       | some cr =>
         if (g.getN cr).nodeType = .groupNode then
           expandChain fuel
             (g.modifyNode cr (fun n => { n with expanded := true })) cr
         else (g, cur)
       | none => (g, cur))
    | _ => (g, cur)

/-- One step of the layout-data clearing loop of `handleExpandGroupNode`
(GraphPreprocessor.ts:552-556): `modelGraph.nodesById[nodeId]!` followed by
property writes throws a `TypeError` when the id is not in the index. -/
def clearSizeStep (g : ModelGraph) (nodeId : String) :
    Except String ModelGraph :=
  match g.lookupRef nodeId with
  | none =>
    Except.error ("TypeError: cannot set width of undefined node " ++ nodeId)
  | some r =>
    Except.ok (g.modifyNode r
      (fun n => { n with width := none, height := none }))

/-- The layout-data clearing loop of `handleExpandGroupNode`
(GraphPreprocessor.ts:552-556). -/
def clearSizes (g : ModelGraph) (ids : List String) :
    Except String ModelGraph :=
  ids.foldlM clearSizeStep g

/-- One step of the `all`-expansion loop of `handleExpandGroupNode`
(GraphPreprocessor.ts:559-564).  `isGroupNode` (common/utils.ts, not under
src/) reads the node's `nodeType`, so a descendant id missing from the index
makes the request fail; descendant ids always resolve in the graphs the
processor maintains. -/
def expandDescStep (g : ModelGraph) (childNodeId : String) :
    Except String ModelGraph :=
  match g.lookupRef childNodeId with
  | none =>
    Except.error ("TypeError: cannot read nodeType of undefined node " ++
      childNodeId)
  | some r =>
    Except.ok
      (if (g.getN r).nodeType = .groupNode then
        g.modifyNode r (fun n => { n with expanded := true })
      else g)

/-- The `all`-expansion loop of `handleExpandGroupNode`
(GraphPreprocessor.ts:559-564). -/
def expandDescendantGroups (g : ModelGraph) (ids : List String) :
    Except String ModelGraph :=
  ids.foldlM expandDescStep g

/-- Collapse of one descendant group inside the `all`-collapse loop of
`handleCollapseGroupNode` (GraphPreprocessor.ts:591-595): collapse the
group, clear its size, and drop its stored intra-group edges. -/
def collapseOne (g : ModelGraph) (r : Nat) : ModelGraph :=
  let g := g.modifyNode r (fun n =>
    { n with expanded := false, width := none, height := none })
  let gid := (g.getN r).id
  { g with edgesByGroupNodeIds :=
      g.edgesByGroupNodeIds.filter (fun k => ¬ k = gid) }

/-- One step of the `all`-collapse loop of `handleCollapseGroupNode`
(GraphPreprocessor.ts:589-597). -/
def collapseDescStep (g : ModelGraph) (childNodeId : String) :
    Except String ModelGraph :=
  match g.lookupRef childNodeId with
  | none =>
    Except.error ("TypeError: cannot read nodeType of undefined node " ++
      childNodeId)
  | some r =>
    if (g.getN r).nodeType = .groupNode then Except.ok (collapseOne g r)
    else Except.ok g

/-- The `all`-collapse loop of `handleCollapseGroupNode`
(GraphPreprocessor.ts:589-597). -/
def collapseDescendants (g : ModelGraph) (ids : List String) :
    Except String ModelGraph :=
  ids.foldlM collapseDescStep g

/-- The group-expansion path of `handleExpandGroupNode`
(GraphPreprocessor.ts:524-551): expand the node, auto-expand the
single-child chain, compute the deepest expanded groups under the reached
node and clear the sizes of its descendants. -/
def expandGroupPath (chainFuel : Nat) (g : ModelGraph) (r : Nat) :
    Except String (ModelGraph × Option (List String)) := do
  let g := g.modifyNode r (fun n => { n with expanded := true })
  let gc := expandChain chainFuel g r
  let g := gc.1
  let cur := gc.2
  let ids := getDeepestExpandedGroupNodeIds g (some cur)
  let deepest := if ids.isEmpty then [(g.getN cur).id] else ids
  let g ← clearSizes g ((g.getN cur).descendantsNodeIds.getD [])
  pure (g, some deepest)

/-- `handleExpandGroupNode` (GraphPreprocessor.ts:514-577).  With a group
id: expand it, auto-expand the single-child chain, clear descendant sizes;
with `all`, expand every descendant group — this dereferences
`(groupNode as GroupNode).descendantsNodeIds`, a `TypeError` when the id is
unknown.  Without a group id: expand all groups.  Returns the updated graph
and the deepest-expanded-group ids. -/
def handleExpandGroupNode (chainFuel : Nat) (g : ModelGraph)
    (groupNodeId : Option String) (all : Bool) :
    Except String (ModelGraph × List String) :=
  match groupNodeId with
  | some gid => do
    let groupNode? := g.lookupRef gid
    let st ←
      match groupNode? with
      | some r =>
        if (g.getN r).nodeType = .groupNode then
          expandGroupPath chainFuel g r
        else pure (g, (none : Option (List String)))
      | none => pure (g, (none : Option (List String)))
    let st ←
      if all then
        match groupNode? with
        | none =>
          Except.error ("TypeError: cannot read descendantsNodeIds of " ++
            "undefined group " ++ gid)
        | some r => do
          let g ← expandDescendantGroups st.1
            ((st.1.getN r).descendantsNodeIds.getD [])
          pure (g, (none : Option (List String)))
      else pure st
    let g := reLayoutGraph st.1 st.2 false
    pure (g, getDeepestExpandedGroupNodeIds g none)
  | none => pure (expandAllGroups g)

/-- `handleCollapseGroupNode` (GraphPreprocessor.ts:579-603).  With a group
id and `all`: collapse every descendant group — `modelGraph.nodesById
[groupNodeId] as GroupNode` followed by `.descendantsNodeIds` is a
`TypeError` when the id is unknown; then delegate to the collapse
collaborator.  Without a group id: collapse everything. -/
def handleCollapseGroupNode (g : ModelGraph) (groupNodeId : Option String)
    (all : Bool) : Except String (ModelGraph × List String) :=
  match groupNodeId with
  | some gid => do
    let g ←
      if all then
        match g.lookupRef gid with
        | none =>
          Except.error ("TypeError: cannot read descendantsNodeIds of " ++
            "undefined group " ++ gid)
        | some r => collapseDescendants g ((g.getN r).descendantsNodeIds.getD [])
      else pure g
    pure (collapseGroupNode g gid)
  | none => pure (collapseAllGroup g)

/-- `handleReLayoutGraph` (GraphPreprocessor.ts:605-612). -/
def handleReLayoutGraph (g : ModelGraph)
    (targetDeepestGroupNodeIdsToExpand : Option (List String))
    (clearAllExpandStates : Bool) : ModelGraph :=
  reLayoutGraph g targetDeepestGroupNodeIdsToExpand clearAllExpandStates

/-- The process-wide `MODEL_GRAPHS_CACHE` (GraphPreprocessor.ts:403). -/
abbrev ModelGraphCache := List (String × ModelGraph)

/-- `getModelGraphKey` (GraphPreprocessor.ts:628-630). -/
def getModelGraphKey (modelGraphId rendererId : String) : String :=
  modelGraphId ++ "___" ++ rendererId

/-- `cacheModelGraph` (GraphPreprocessor.ts:614-616): keyed by the *graph's
own* id plus the renderer id. -/
def cacheModelGraph (c : ModelGraphCache) (g : ModelGraph)
    (rendererId : String) : ModelGraphCache :=
  recordSet c (getModelGraphKey g.id rendererId) g

/-- `getCachedModelGraph` (GraphPreprocessor.ts:618-626): a missing entry
throws. -/
def getCachedModelGraph (c : ModelGraphCache)
    (modelGraphId rendererId : String) : Except String ModelGraph :=
  match lookupAssoc c (getModelGraphKey modelGraphId rendererId) with
  | none => Except.error ("ModelGraph with id " ++ modelGraphId ++
      " not found for rendererId " ++ rendererId)
  | some g => Except.ok g

/-- `ExpandOrCollapseGroupNodeResponse` (common/WorkerEvents.ts:63-73). -/
structure ExpandOrCollapseGroupNodeResponse where
  modelGraph : ModelGraph
  expanded : Bool
  groupNodeId : Option String
  rendererId : String
  deepestExpandedGroupNodeIds : List String
deriving DecidableEq, Repr

/-- `RelayoutGraphResponse` (common/WorkerEvents.ts:92-101); the echoed
UI-restoration flags carry no graph content and are omitted. -/
structure RelayoutGraphResponse where
  modelGraph : ModelGraph
  selectedNodeId : String
  rendererId : String
deriving DecidableEq, Repr

/-- The `EXPAND_OR_COLLAPSE_GROUP_NODE_REQ` case of the worker message
listener (GraphPreprocessor.ts:424-451): look up the cached graph (a miss
throws before anything is touched), run the handler, re-cache, and respond.
A thrown error leaves the cache exactly as it was. -/
def routeExpandOrCollapse (c : ModelGraphCache)
    (modelGraphId rendererId : String) (expand : Bool)
    (groupNodeId : Option String) (all : Bool) (chainFuel : Nat) :
    Except String ExpandOrCollapseGroupNodeResponse × ModelGraphCache :=
  match getCachedModelGraph c modelGraphId rendererId with
  | .error e => (.error e, c)
  | .ok modelGraph =>
    let result :=
      if expand then handleExpandGroupNode chainFuel modelGraph groupNodeId all
      else handleCollapseGroupNode modelGraph groupNodeId all
    match result with
    | .error e => (.error e, c)
    | .ok gi =>
      (.ok { modelGraph := gi.1, expanded := expand,
             groupNodeId := groupNodeId, rendererId := rendererId,
             deepestExpandedGroupNodeIds := gi.2 },
       cacheModelGraph c gi.1 rendererId)

/-- The `RELAYOUT_GRAPH_REQ` case of the worker message listener
(GraphPreprocessor.ts:452-472). -/
def routeRelayout (c : ModelGraphCache)
    (modelGraphId rendererId selectedNodeId : String)
    (targets : Option (List String)) (clearAllExpandStates : Bool) :
    Except String RelayoutGraphResponse × ModelGraphCache :=
  match getCachedModelGraph c modelGraphId rendererId with
  | .error e => (.error e, c)
  | .ok modelGraph =>
    let g := handleReLayoutGraph modelGraph targets clearAllExpandStates
    (.ok { modelGraph := g, selectedNodeId := selectedNodeId,
           rendererId := rendererId },
     cacheModelGraph c g rendererId)

/-! ## Derived definitions and predicates used by the theorems -/

/-- The graph produced by the builder passes alone (`processNodes` followed
by `processEdgeRelationships` on a fresh graph). -/
def buildModelGraph (flattenLayers : Bool) (graph : GraphData) : ModelGraph :=
  processEdgeRelationships graph
    (processNodes flattenLayers graph createEmptyModelGraph)

/-- Node `a` records an outgoing edge to `b` (resolution through
`nodesById`, as all reads in the code do). -/
def hasOutgoing (g : ModelGraph) (a b : String) : Bool :=
  match g.lookupRef a with
  | some r => ((g.getN r).outgoingEdges.getD []).any (fun e => e.targetNodeId = b)
  | none => false

/-- Node `b` records an incoming edge from `a`. -/
def hasIncoming (g : ModelGraph) (b a : String) : Bool :=
  match g.lookupRef b with
  | some r => ((g.getN r).incomingEdges.getD []).any (fun e => e.sourceNodeId = a)
  | none => false

/-- Number of outgoing edges of `a` whose target is `b`. -/
def outgoingCount (g : ModelGraph) (a b : String) : Nat :=
  match g.lookupRef a with
  | some r => (((g.getN r).outgoingEdges.getD []).filter
      (fun e => e.targetNodeId = b)).length
  | none => 0

/-- Number of incoming edges of `b` whose source is `a`. -/
def incomingCount (g : ModelGraph) (b a : String) : Nat :=
  match g.lookupRef b with
  | some r => (((g.getN r).incomingEdges.getD []).filter
      (fun e => e.sourceNodeId = a)).length
  | none => 0

/-- Whether an `Except`-valued handler completed normally. -/
def exceptIsOk {α : Type} : Except String α → Bool
  | .ok _ => true
  | .error _ => false

/-- The partitioning bound asserted by the spec: after the Partitioner no
group node has more direct children than the threshold (the spec's leftover
clause excepts only buckets that are themselves of size at most `T`, so the
assertion amounts to this bound for every group). -/
def PartitionBound (T : Nat) (g : ModelGraph) : Prop :=
  ∀ r ∈ g.nodes, (g.getN r).nodeType = .groupNode →
    ((g.getN r).childrenIds.getD []).length ≤ T

/-- Every artificial section node on the heap has a non-empty child list of
at most `T` entries.  Builder output trivially satisfies this (it contains
no sections). -/
def SectionsOK (T : Nat) (g : ModelGraph) : Prop :=
  ∀ n ∈ g.store, n.sectionContainer = true →
    0 < (n.childrenIds.getD []).length ∧ (n.childrenIds.getD []).length ≤ T

/-- No scope offered to the Partitioner exceeds the threshold: at most `T`
root references and at most `T` entries in any node's child list. -/
def NoLargeGroups (T : Nat) (g : ModelGraph) : Prop :=
  g.rootNodes.length ≤ T ∧ ∀ n ∈ g.store, (n.childrenIds.getD []).length ≤ T

/-- Every `nodesById` entry points at a valid heap cell whose id is the
entry's key. -/
def WfIndex (g : ModelGraph) : Prop :=
  ∀ p ∈ g.nodesById,
    p.2 < g.store.length ∧ (g.getN p.2).id = p.1

/-- Every listed node is registered in `nodesById` under its own id. -/
def NodesRegistered (g : ModelGraph) : Prop :=
  ∀ r ∈ g.nodes, g.lookupRef ((g.getN r).id) = some r

/-- Every stored descendant id resolves in `nodesById` (spec §3: "every
node reachable via childrenIds is present in the id index"). -/
def WfDescendants (g : ModelGraph) : Prop :=
  ∀ n ∈ g.store, ∀ i ∈ n.descendantsNodeIds.getD [],
    (g.lookupRef i).isSome = true

/-- `y` is a visible layout successor of `x`: `x` resolves to a node with an
outgoing edge targeting `y`, and `y` resolves to a non-hidden node. -/
def succVisible (g : ModelGraph) (x y : String) : Prop :=
  (∃ rx, g.lookupRef x = some rx ∧
    y ∈ ((g.getN rx).outgoingEdges.getD []).map (·.targetNodeId)) ∧
  (∃ ry, g.lookupRef y = some ry ∧ (g.getN ry).hideInLayout = false)

/-- The node ids the layout BFS is meant to visit: ids of the traversal
roots, closed under visible successors. -/
inductive ReachV (g : ModelGraph) : String → Prop where
  | root (r : Nat) (hr : r ∈ layoutRootRefs g) : ReachV g ((g.getN r).id)
  | step (x y : String) (hx : ReachV g x) (hs : succVisible g x y) :
      ReachV g y

/-- The invariant of the layout BFS: queue references are registered under
their own id, seen ids are reachable, processable queue entries are
reachable, the seen set is closed up to pending queue entries, and no id was
recorded twice. -/
def BfsInv (g : ModelGraph) (queue : List (Option Nat))
    (seen : List String) : Prop :=
  (∀ r, some r ∈ queue → g.lookupRef ((g.getN r).id) = some r) ∧
    (∀ x ∈ seen, ReachV g x) ∧
    (∀ r, some r ∈ queue → (g.getN r).hideInLayout = false →
      ReachV g ((g.getN r).id)) ∧
    (∀ x ∈ seen, ∀ y, succVisible g x y → y ∈ seen ∨
      ∃ ry, g.lookupRef y = some ry ∧ some ry ∈ queue) ∧
    seen.Nodup

/-- Input graph of the spec's first scenario restricted to two nodes:
assets `a`, `b` in group `g`, one edge `a → b`. -/
def gdTwoChain : GraphData :=
  { nodes := [{ id := "a", groupName := "g" }, { id := "b", groupName := "g" }],
    upstream := [("b", ["a"])] }

/-- Input graph with a single asset `a` in group `g`. -/
def gdSingle : GraphData :=
  { nodes := [{ id := "a", groupName := "g" }],
    upstream := [] }

/-- An asset leaf for the hand-built splitter examples. -/
def mkAsset (nm gname : String) : ModelNode :=
  { nodeType := .assetNode, id := nm,
    nodeNamespace := gname ++ "/" ++ nm, level := 1, parentId := some gname }

/-- A hand-built model graph whose group `g` has five asset children and no
edges: with threshold 2 the Partitioner splits it into three sections, so
`g` ends up with three direct children — more than the threshold. -/
def exampleSplitGraph : ModelGraph :=
  { id := "<ROOT>",
    store :=
      [{ nodeType := .groupNode, id := "g", nodeNamespace := "g", level := 0,
         childrenIds := some ["a", "b", "c", "d", "e"], expanded := false },
       mkAsset "a" "g", mkAsset "b" "g", mkAsset "c" "g",
       mkAsset "d" "g", mkAsset "e" "g"],
    nodes := [0, 1, 2, 3, 4, 5],
    nodesById :=
      [("g", 0), ("a", 1), ("b", 2), ("c", 3), ("d", 4), ("e", 5)],
    rootNodes := [0],
    minDescendantAssetNodeCount := .finite (-1),
    maxDescendantAssetNodeCount := .finite (-1) }

/-- A session cache holding the empty model graph under the key the worker
itself would use (`modelGraph.id = "<ROOT>"`, renderer `r1`). -/
def exampleCache : ModelGraphCache :=
  [(getModelGraphKey "<ROOT>" "r1", createEmptyModelGraph)]

instance (g : ModelGraph) : Decidable (WfIndex g) := by
  unfold WfIndex; infer_instance

instance (g : ModelGraph) : Decidable (NodesRegistered g) := by
  unfold NodesRegistered; infer_instance

instance (g : ModelGraph) : Decidable (WfDescendants g) := by
  unfold WfDescendants; infer_instance

instance (T : Nat) (g : ModelGraph) : Decidable (SectionsOK T g) := by
  unfold SectionsOK; infer_instance

instance (T : Nat) (g : ModelGraph) : Decidable (NoLargeGroups T g) := by
  unfold NoLargeGroups; infer_instance

instance (T : Nat) (g : ModelGraph) : Decidable (PartitionBound T g) := by
  unfold PartitionBound; infer_instance

/-- A node with the edge lists blanked; the edge-relationship pass changes
nodes only up to this projection. -/
def stripEdges (n : ModelNode) : ModelNode :=
  { n with incomingEdges := none, outgoingEdges := none }

/-- A graph with all edge lists blanked: everything the edge-relationship
pass leaves untouched. -/
def edgeSkeleton (g : ModelGraph) : ModelGraph :=
  { g with store := g.store.map stripEdges }

/-- A node with the Aggregator's output fields blanked; the Aggregator
changes nodes only up to this projection. -/
def stripDesc (n : ModelNode) : ModelNode :=
  { n with descendantsNodeIds := none, descendantsAssetNodeIds := none }

/-- The data of a node that the section-bound invariant depends on: its
`sectionContainer` flag and the length of its child list.  Namespace
rewriting never changes it. -/
def secLen (n : ModelNode) : Bool × Nat :=
  (n.sectionContainer, (n.childrenIds.getD []).length)

/-- `record[edge.sourceNodeId]`-keyed de-duplicated push of an incoming
edge, as in GraphPreprocessor.ts:98-104. -/
def pushEdgeSource (l : List Edge) (s tid : String) : List Edge :=
  if l.any (fun e => e.sourceNodeId = s) then l
  else l ++ [{ sourceNodeId := s, targetNodeId := tid }]

/-- `targetNodeId`-keyed de-duplicated push of an outgoing edge, as in
GraphPreprocessor.ts:106-115. -/
def pushEdgeTarget (l : List Edge) (s nid : String) : List Edge :=
  if l.any (fun e => e.targetNodeId = nid) then l
  else l ++ [{ targetNodeId := nid, sourceNodeId := s }]

/-- The invariant the edge-relationship pass maintains: a well-formed id
index, outgoing/incoming records that mirror each other, and at most one
edge per directed pair on either side. -/
def EdgeInv (g : ModelGraph) : Prop :=
  WfIndex g ∧
    (∀ a b, (hasOutgoing g a b = true ↔ hasIncoming g b a = true)) ∧
    (∀ a b, outgoingCount g a b ≤ 1 ∧ incomingCount g b a ≤ 1)

/-! ## Generic helper lemmas -/

theorem foldlInvariant {σ α : Type _} (P : σ → Prop) (f : σ → α → σ)
    (l : List α) (s : σ) (h : ∀ s a, a ∈ l → P s → P (f s a)) (hs : P s) :
    P (l.foldl f s) := by
  induction l generalizing s with
  | nil => exact hs
  | cons a l ih =>
    exact ih (f s a)
      (fun s' a' ha' hs' => h s' a' (List.mem_cons_of_mem _ ha') hs')
      (h s a (List.mem_cons_self _ _) hs)

theorem modifyNode_nodesById (g : ModelGraph) (r : Nat)
    (f : ModelNode → ModelNode) :
    (g.modifyNode r f).nodesById = g.nodesById := by
  unfold ModelGraph.modifyNode; cases g.store.get? r <;> rfl

theorem modifyNode_nodes (g : ModelGraph) (r : Nat)
    (f : ModelNode → ModelNode) :
    (g.modifyNode r f).nodes = g.nodes := by
  unfold ModelGraph.modifyNode; cases g.store.get? r <;> rfl

theorem modifyNode_rootNodes (g : ModelGraph) (r : Nat)
    (f : ModelNode → ModelNode) :
    (g.modifyNode r f).rootNodes = g.rootNodes := by
  unfold ModelGraph.modifyNode; cases g.store.get? r <;> rfl

theorem modifyNode_id (g : ModelGraph) (r : Nat)
    (f : ModelNode → ModelNode) :
    (g.modifyNode r f).id = g.id := by
  unfold ModelGraph.modifyNode; cases g.store.get? r <;> rfl

theorem modifyNode_store_length (g : ModelGraph) (r : Nat)
    (f : ModelNode → ModelNode) :
    (g.modifyNode r f).store.length = g.store.length := by
  unfold ModelGraph.modifyNode
  cases g.store.get? r <;> simp [List.length_set]

theorem modifyNode_lookupRef (g : ModelGraph) (r : Nat)
    (f : ModelNode → ModelNode) (k : String) :
    (g.modifyNode r f).lookupRef k = g.lookupRef k := by
  unfold ModelGraph.lookupRef
  rw [modifyNode_nodesById, modifyNode_store_length]

theorem modifyNode_store_get?_ne (g : ModelGraph) (r : Nat)
    (f : ModelNode → ModelNode) (r' : Nat) (h : r ≠ r') :
    (g.modifyNode r f).store.get? r' = g.store.get? r' := by
  unfold ModelGraph.modifyNode
  cases hg : g.store.get? r with
  | none => rfl
  | some n => simp [List.getElem?_set_ne h]

theorem modifyNode_getN_ne (g : ModelGraph) (r : Nat)
    (f : ModelNode → ModelNode) (r' : Nat) (h : r ≠ r') :
    (g.modifyNode r f).getN r' = g.getN r' := by
  unfold ModelGraph.getN
  rw [modifyNode_store_get?_ne g r f r' h]

theorem modifyNode_store_get?_same (g : ModelGraph) (r : Nat)
    (f : ModelNode → ModelNode) (n : ModelNode)
    (h : g.store.get? r = some n) :
    (g.modifyNode r f).store.get? r = some (f n) := by
  unfold ModelGraph.modifyNode
  rw [h]
  have hr : r < g.store.length := by
    cases hlt : decide (r < g.store.length) with
    | true => exact of_decide_eq_true hlt
    | false =>
      exfalso
      have := List.get?_eq_none.mpr (Nat.le_of_not_lt (of_decide_eq_false hlt))
      rw [this] at h; cases h
  simp [List.getElem?_set_eq_of_lt _ hr]

theorem modifyNode_getN_same (g : ModelGraph) (r : Nat)
    (f : ModelNode → ModelNode) (n : ModelNode)
    (h : g.store.get? r = some n) :
    (g.modifyNode r f).getN r = f n := by
  unfold ModelGraph.getN
  rw [modifyNode_store_get?_same g r f n h]; rfl

/-! ## C9: the returned model graph's id -/

/-- C9: for every `ProcessGraph` request, the graph `handleProcessGraph`
returns (and the router caches) carries the id `"<ROOT>"` hard-coded in
`createEmptyModelGraph` — it is never set to the request's `graphId`, so it
matches the input graph id only when that id happens to be `"<ROOT>"`.  This
contradicts common/ModelGraph.ts, whose doc for `ModelGraph.id` says "It is
the same as the corresponding input `Graph`".  Evaluated here at the failing
request `graphId = "g1"` with a one-asset input graph, quantified over the
requested id to show the result never depends on it. -/
theorem c9_processed_graph_id (graphId : String) :
    (handleProcessGraph 500 30 30 30 30 graphId gdSingle).id = "<ROOT>" ∧
      (handleProcessGraph 500 30 30 30 30 "g1" gdSingle).id ≠ "g1" := by
  constructor
  · rfl
  · decide

/-! ## C8: sentinel statistics on group-free graphs -/

theorem populateAux_no_groups (gatherFuel : Nat) (rs : List Nat)
    (g : ModelGraph) (minv maxv : JsNum)
    (h : ∀ r ∈ rs, ¬ (g.getN r).nodeType = .groupNode) :
    populateAux gatherFuel rs g minv maxv =
      { g with minDescendantAssetNodeCount := minv,
               maxDescendantAssetNodeCount := maxv } := by
  induction rs with
  | nil => rfl
  | cons r rest ih =>
    have hr : ¬ (g.getN r).nodeType = .groupNode :=
      h r (List.mem_cons_self _ _)
    unfold populateAux
    rw [if_neg hr]
    exact ih (fun r' hr' => h r' (List.mem_cons_of_mem _ hr'))

/-- C8: on a model graph with zero group nodes the Aggregator stores the
initial sentinels unchanged: `minDescendantAssetNodeCount` keeps
`Number.MAX_VALUE` and `maxDescendantAssetNodeCount` keeps
`Number.NEGATIVE_INFINITY`, signaling "no data". -/
theorem c8_empty_sentinels (gatherFuel : Nat) (g : ModelGraph)
    (h : ∀ r ∈ g.nodes, ¬ (g.getN r).nodeType = .groupNode) :
    (populateDescendantsAndCounts gatherFuel g).minDescendantAssetNodeCount =
        JsNum.maxValue ∧
      (populateDescendantsAndCounts gatherFuel g).maxDescendantAssetNodeCount =
        JsNum.negInfinity := by
  unfold populateDescendantsAndCounts
  rw [populateAux_no_groups gatherFuel g.nodes g _ _ h]
  exact ⟨rfl, rfl⟩

/-- Witness for C8 at the empty model graph. -/
theorem c8_empty_sentinels_witness :
    (∀ r ∈ createEmptyModelGraph.nodes,
        ¬ (createEmptyModelGraph.getN r).nodeType = .groupNode) ∧
      (populateDescendantsAndCounts 30
          createEmptyModelGraph).minDescendantAssetNodeCount =
        JsNum.maxValue ∧
      (populateDescendantsAndCounts 30
          createEmptyModelGraph).maxDescendantAssetNodeCount =
        JsNum.negInfinity :=
  ⟨by decide, c8_empty_sentinels 30 createEmptyModelGraph (by decide)⟩

/-! ## Frame lemmas shared by the builder/aggregator claims -/

theorem set_get?_self {α : Type _} (l : List α) (n : Nat) (a : α)
    (h : l.get? n = some a) : l.set n a = l := by
  induction l generalizing n with
  | nil => cases h
  | cons x xs ih =>
    cases n with
    | zero => cases h; rfl
    | succ m => simp only [List.set]; rw [ih m h]

/-- Mutating a node with a function invisible to a projection `p` leaves the
`p`-image of the heap unchanged. -/
theorem modifyNode_store_map {β : Type _} (g : ModelGraph) (r : Nat)
    (f : ModelNode → ModelNode) (p : ModelNode → β)
    (hp : ∀ n, p (f n) = p n) :
    (g.modifyNode r f).store.map p = g.store.map p := by
  unfold ModelGraph.modifyNode
  cases hg : g.store.get? r with
  | none => rfl
  | some n =>
    show (g.store.set r (f n)).map p = g.store.map p
    rw [List.map_set, hp]
    exact set_get?_self _ _ _ (by rw [List.get?_map, hg]; rfl)

theorem map_getN {β : Type _} (g g' : ModelGraph) (p : ModelNode → β)
    (h : g'.store.map p = g.store.map p)
    (r : Nat) : p (g'.getN r) = p (g.getN r) := by
  have h1 : (g'.store.map p).get? r = (g.store.map p).get? r := by rw [h]
  rw [List.get?_map, List.get?_map] at h1
  unfold ModelGraph.getN
  cases hg : g'.store.get? r with
  | none =>
    rw [hg] at h1
    cases hg' : g.store.get? r with
    | none => rfl
    | some m => rw [hg'] at h1; cases h1
  | some n =>
    rw [hg] at h1
    cases hg' : g.store.get? r with
    | none => rw [hg'] at h1; cases h1
    | some m =>
      rw [hg'] at h1
      simp only [Option.map_some'] at h1
      simpa using h1

/-! ## Builder structure: what processNodes / the edge pass never touch -/

/-- Fields of the freshly built nodes: `processNodes` assigns no parent, no
children and no descendant lists, and pushes nothing onto `rootNodes`. -/
def FreshNode (n : ModelNode) : Prop :=
  n.parentId = none ∧ n.childrenIds = none ∧
    n.descendantsNodeIds = none ∧ n.descendantsAssetNodeIds = none

theorem processNodes_structure (fl : Bool) (graph : GraphData) :
    (processNodes fl graph createEmptyModelGraph).rootNodes = [] ∧
      ∀ n ∈ (processNodes fl graph createEmptyModelGraph).store, FreshNode n := by
  unfold processNodes
  have := foldlInvariant
    (fun st : ModelGraph × List String =>
      st.1.rootNodes = [] ∧ ∀ n ∈ st.1.store, FreshNode n)
    (processOneNode fl) graph.nodes (createEmptyModelGraph, [])
    ?step ?base
  · exact this
  · intro s a _ hP
    obtain ⟨hroot, hstore⟩ := hP
    unfold processOneNode ModelGraph.addNodeR
    constructor
    case left =>
      dsimp only
      split
      · split
        · exact hroot
        · exact hroot
      · exact hroot
    case right =>
      dsimp only
      intro n hn
      split at hn
      · split at hn
        · simp only [List.mem_append, List.mem_singleton] at hn
          rcases hn with hn | rfl
          · exact hstore n hn
          · exact ⟨rfl, rfl, rfl, rfl⟩
        · simp only [List.mem_append, List.mem_singleton] at hn
          rcases hn with (hn | rfl) | rfl
          · exact hstore n hn
          · exact ⟨rfl, rfl, rfl, rfl⟩
          · exact ⟨rfl, rfl, rfl, rfl⟩
      · simp only [List.mem_append, List.mem_singleton] at hn
        rcases hn with hn | rfl
        · exact hstore n hn
        · exact ⟨rfl, rfl, rfl, rfl⟩
  · exact ⟨rfl, by intro n hn; cases hn⟩

theorem modifyNode_edgeSkeleton (g : ModelGraph) (r : Nat)
    (f : ModelNode → ModelNode)
    (hp : ∀ n, stripEdges (f n) = stripEdges n) :
    edgeSkeleton (g.modifyNode r f) = edgeSkeleton g := by
  unfold edgeSkeleton ModelGraph.modifyNode
  cases hg : g.store.get? r with
  | none => rfl
  | some n =>
    dsimp only
    congr 1
    rw [List.map_set, hp]
    exact set_get?_self _ _ _ (by rw [List.get?_map, hg]; rfl)

theorem processPair_edgeSkeleton (t : String) (nr : Nat) (g : ModelGraph)
    (s : String) : edgeSkeleton (processPair t nr g s) = edgeSkeleton g := by
  unfold processPair
  cases g.lookupRef s with
  | none => rfl
  | some sr =>
    dsimp only
    refine (modifyNode_edgeSkeleton _ sr _ ?_).trans
      (modifyNode_edgeSkeleton g nr _ ?_)
    · intro n; rfl
    · intro n; rfl

theorem processEdgesForNode_edgeSkeleton (graph : GraphData) (g : ModelGraph)
    (gn : GraphNode) :
    edgeSkeleton (processEdgesForNode graph g gn) = edgeSkeleton g := by
  unfold processEdgesForNode
  cases g.lookupRef gn.id with
  | none => rfl
  | some nr =>
    dsimp only
    exact foldlInvariant (fun g' => edgeSkeleton g' = edgeSkeleton g)
      (processPair gn.id nr) _ g
      (fun g' a _ h => (processPair_edgeSkeleton gn.id nr g' a).trans h) rfl

theorem processEdgeRelationships_edgeSkeleton (graph : GraphData)
    (g : ModelGraph) :
    edgeSkeleton (processEdgeRelationships graph g) = edgeSkeleton g := by
  unfold processEdgeRelationships
  exact foldlInvariant (fun g' => edgeSkeleton g' = edgeSkeleton g)
    (processEdgesForNode graph) _ g
    (fun g' a _ h => (processEdgesForNode_edgeSkeleton graph g' a).trans h) rfl

theorem fresh_of_edgeSkeleton (g g' : ModelGraph)
    (h : edgeSkeleton g' = edgeSkeleton g)
    (hg : ∀ n ∈ g.store, FreshNode n) : ∀ n ∈ g'.store, FreshNode n := by
  intro n hn
  have hmap : g'.store.map stripEdges = g.store.map stripEdges :=
    congrArg ModelGraph.store h
  have hmem : stripEdges n ∈ g.store.map stripEdges :=
    hmap ▸ List.mem_map_of_mem _ hn
  obtain ⟨m, hm, hsm⟩ := List.mem_map.mp hmem
  obtain ⟨h1, h2, h3, h4⟩ := hg m hm
  have e1 : m.parentId = n.parentId := by
    have := congrArg ModelNode.parentId hsm; simpa [stripEdges] using this
  have e2 : m.childrenIds = n.childrenIds := by
    have := congrArg ModelNode.childrenIds hsm; simpa [stripEdges] using this
  have e3 : m.descendantsNodeIds = n.descendantsNodeIds := by
    have := congrArg ModelNode.descendantsNodeIds hsm
    simpa [stripEdges] using this
  have e4 : m.descendantsAssetNodeIds = n.descendantsAssetNodeIds := by
    have := congrArg ModelNode.descendantsAssetNodeIds hsm
    simpa [stripEdges] using this
  exact ⟨e1 ▸ h1, e2 ▸ h2, e3 ▸ h3, e4 ▸ h4⟩

theorem generateLayoutGraphConnections_eq (g : ModelGraph) :
    generateLayoutGraphConnections g = { g with layoutGraphEdges := [] } := rfl

theorem splitLoop_nil (T d u fuel : Nat) (g : ModelGraph) (flag : Bool) :
    splitLoop T d u fuel g [] flag = (g, flag) := by
  cases fuel <;> rfl

/-- On a graph with an empty root-node list the Partitioner is the
identity: the only queue entry is the root scope, whose child list is the
empty `rootNodes`. -/
theorem splitLargeGroupNodes_no_roots (T lf df uf : Nat) (g : ModelGraph)
    (h : g.rootNodes = []) : splitLargeGroupNodes T lf df uf g = g := by
  have hstep : splitStep T df uf g none = (g, [], false) := by
    unfold splitStep
    dsimp only
    rw [h]
    simp
  unfold splitLargeGroupNodes
  cases lf with
  | zero => rfl
  | succ n =>
    have hloop : splitLoop T df uf (n + 1) g [none] false = (g, false) := by
      unfold splitLoop
      rw [hstep]
      simpa using splitLoop_nil T df uf n g false
    rw [hloop]
    rfl

theorem populateAux_frame (f : Nat) (rs : List Nat) (g : ModelGraph)
    (mn mx : JsNum) :
    (populateAux f rs g mn mx).rootNodes = g.rootNodes ∧
      (populateAux f rs g mn mx).nodes = g.nodes ∧
      (populateAux f rs g mn mx).nodesById = g.nodesById ∧
      (populateAux f rs g mn mx).id = g.id := by
  induction rs generalizing g mn mx with
  | nil => exact ⟨rfl, rfl, rfl, rfl⟩
  | cons r rest ih =>
    unfold populateAux
    split
    · dsimp only
      obtain ⟨a, b, c, d⟩ := ih (g.modifyNode r _) _ _
      exact ⟨a.trans (modifyNode_rootNodes g r _),
             b.trans (modifyNode_nodes g r _),
             c.trans (modifyNode_nodesById g r _),
             d.trans (modifyNode_id g r _)⟩
    · exact ih g mn mx

theorem populateAux_store_map {β : Type _} (p : ModelNode → β)
    (hp : ∀ (n : ModelNode) d1 d2,
      p { n with descendantsNodeIds := d1, descendantsAssetNodeIds := d2 } =
        p n)
    (f : Nat) (rs : List Nat) (g : ModelGraph) (mn mx : JsNum) :
    (populateAux f rs g mn mx).store.map p = g.store.map p := by
  induction rs generalizing g mn mx with
  | nil => rfl
  | cons r rest ih =>
    unfold populateAux
    split
    · dsimp only
      exact (ih _ _ _).trans
        (modifyNode_store_map g r _ p (fun n => hp n _ _))
    · exact ih g mn mx

theorem populateAux_get?_notMem (f : Nat) (rs : List Nat) (g : ModelGraph)
    (mn mx : JsNum) (r : Nat) (h : r ∉ rs) :
    (populateAux f rs g mn mx).store.get? r = g.store.get? r := by
  induction rs generalizing g mn mx with
  | nil => rfl
  | cons r0 rest ih =>
    have hne : r0 ≠ r := fun e => h (e ▸ List.mem_cons_self _ _)
    have hrest : r ∉ rest := fun e => h (List.mem_cons_of_mem _ e)
    unfold populateAux
    split
    · dsimp only
      rw [ih _ _ _ hrest]
      exact modifyNode_store_get?_ne g r0 _ r hne
    · exact ih g mn mx hrest

theorem store_pred_modify (P : ModelNode → Prop) (g : ModelGraph) (r : Nat)
    (fn : ModelNode → ModelNode) (hf : ∀ n, P n → P (fn n))
    (h : ∀ n ∈ g.store, P n) : ∀ n ∈ (g.modifyNode r fn).store, P n := by
  unfold ModelGraph.modifyNode
  cases hg : g.store.get? r with
  | none => exact h
  | some m =>
    intro n hn
    rcases List.mem_or_eq_of_mem_set hn with hn | rfl
    · exact h n hn
    · exact hf m (h m (List.get?_mem hg))

theorem childrenIds_none_getN (g : ModelGraph)
    (h : ∀ n ∈ g.store, n.childrenIds = none) (r : Nat) :
    (g.getN r).childrenIds = none := by
  unfold ModelGraph.getN
  cases hg : g.store.get? r with
  | none => rfl
  | some n => exact h n (List.get?_mem hg)

theorem gatherDescendants_nil (g : ModelGraph) (fuel r : Nat)
    (h : (g.getN r).childrenIds = none) :
    gatherDescendants g fuel r = [] := by
  cases fuel with
  | zero => rfl
  | succ n => unfold gatherDescendants; rw [h]; rfl

theorem setDescFields_childrenIds (dIds dAssetIds : List String)
    (n : ModelNode) :
    (setDescFields dIds dAssetIds n).childrenIds = n.childrenIds := rfl

theorem setDescFields_nodeType (dIds dAssetIds : List String)
    (n : ModelNode) :
    (setDescFields dIds dAssetIds n).nodeType = n.nodeType := rfl

theorem populateAux_groups_empty (f : Nat) (rs : List Nat) :
    ∀ (g : ModelGraph) (mn mx : JsNum),
      (∀ n ∈ g.store, n.childrenIds = none) →
      ∀ r ∈ rs, (g.getN r).nodeType = .groupNode →
        ((populateAux f rs g mn mx).getN r).descendantsNodeIds = some [] ∧
          ((populateAux f rs g mn mx).getN r).descendantsAssetNodeIds =
            some [] := by
  induction rs with
  | nil =>
    intro g mn mx hch r hr
    cases hr
  | cons r0 rest ih =>
    intro g mn mx hch r hr hgrp
    unfold populateAux
    by_cases h0 : (g.getN r0).nodeType = .groupNode
    · rw [if_pos h0]
      rw [gatherDescendants_nil g f r0 (childrenIds_none_getN g hch r0)]
      simp only [List.map_nil, List.filter_nil]
      have hch' : ∀ n ∈ (g.modifyNode r0 (setDescFields [] [])).store,
          n.childrenIds = none :=
        store_pred_modify (fun n => n.childrenIds = none) g r0
          (setDescFields [] []) (fun n hn => hn) hch
      have htype : ∀ r',
          ((g.modifyNode r0 (setDescFields [] [])).getN r').nodeType =
            (g.getN r').nodeType := fun r' =>
        map_getN g (g.modifyNode r0 (setDescFields [] []))
          ModelNode.nodeType
          (modifyNode_store_map g r0 (setDescFields [] [])
            ModelNode.nodeType (setDescFields_nodeType [] [])) r'
      rcases List.mem_cons.mp hr with rfl | hrest
      · by_cases hmem : r ∈ rest
        · exact ih _ _ _ hch' r hmem ((htype r).trans hgrp)
        · have hout := populateAux_get?_notMem f rest
            (g.modifyNode r (setDescFields [] []))
            (jsMinCount ([] : List String).length mn)
            (jsMaxCount ([] : List String).length mx) r hmem
          have hvalid : ∃ n, g.store.get? r = some n := by
            cases hg : g.store.get? r with
            | none =>
              exfalso
              unfold ModelGraph.getN at h0
              rw [hg] at h0
              exact absurd h0 (by decide)
            | some n => exact ⟨n, rfl⟩
          obtain ⟨n, hn⟩ := hvalid
          have hset := modifyNode_store_get?_same g r (setDescFields [] [])
            n hn
          constructor
          · show ((populateAux f rest _ _ _).getN r).descendantsNodeIds =
              some []
            unfold ModelGraph.getN
            rw [hout, hset]
            rfl
          · show ((populateAux f rest _ _ _).getN
                r).descendantsAssetNodeIds = some []
            unfold ModelGraph.getN
            rw [hout, hset]
            rfl
      · exact ih _ _ _ hch' r hrest ((htype r).trans hgrp)
    · rw [if_neg h0]
      rcases List.mem_cons.mp hr with rfl | hrest
      · exact absurd hgrp h0
      · exact ih g mn mx hch r hrest hgrp

/-! ## C10 and C5: root nodes and children after `process` -/

theorem build_rootNodes_nil (fl : Bool) (gd : GraphData) :
    (buildModelGraph fl gd).rootNodes = [] := by
  have hskel := processEdgeRelationships_edgeSkeleton gd
    (processNodes fl gd createEmptyModelGraph)
  have h2 : (buildModelGraph fl gd).rootNodes =
      (processNodes fl gd createEmptyModelGraph).rootNodes := by
    have := congrArg ModelGraph.rootNodes hskel
    simpa [edgeSkeleton] using this
  exact h2.trans (processNodes_structure fl gd).1

theorem build_fresh (fl : Bool) (gd : GraphData) :
    ∀ n ∈ (buildModelGraph fl gd).store, FreshNode n :=
  fresh_of_edgeSkeleton _ _
    (processEdgeRelationships_edgeSkeleton gd
      (processNodes fl gd createEmptyModelGraph))
    (processNodes_structure fl gd).2

theorem process_eq_populate (T : Nat) (fl : Bool) (lf df uf gf : Nat)
    (gd : GraphData) :
    GraphProcessor.process T fl lf df uf gf gd =
      populateDescendantsAndCounts gf
        (generateLayoutGraphConnections (buildModelGraph fl gd)) := by
  have hg3root :
      (generateLayoutGraphConnections (buildModelGraph fl gd)).rootNodes =
        [] := build_rootNodes_nil fl gd
  have hsplit := splitLargeGroupNodes_no_roots T lf df uf _ hg3root
  unfold buildModelGraph at hsplit
  unfold GraphProcessor.process
  dsimp only
  rw [hsplit]
  rfl

/-- C10: `processNodes` creates namespace group nodes without ever assigning
their `childrenIds`, and `rootNodes` stays empty, so the split pass of
`process` is the identity on the builder's output and the Aggregator
computes empty descendant lists for every group node. -/
theorem c10_groups_childless (T : Nat) (fl : Bool) (lf df uf gf : Nat)
    (gd : GraphData) :
    splitLargeGroupNodes T lf df uf
        (generateLayoutGraphConnections (buildModelGraph fl gd)) =
      generateLayoutGraphConnections (buildModelGraph fl gd) ∧
    (GraphProcessor.process T fl lf df uf gf gd).rootNodes = [] ∧
    ∀ r ∈ (GraphProcessor.process T fl lf df uf gf gd).nodes,
      ((GraphProcessor.process T fl lf df uf gf gd).getN r).nodeType =
          .groupNode →
        ((GraphProcessor.process T fl lf df uf gf gd).getN r).childrenIds =
            none ∧
          ((GraphProcessor.process T fl lf df uf gf gd).getN
              r).descendantsNodeIds = some [] ∧
          ((GraphProcessor.process T fl lf df uf gf gd).getN
              r).descendantsAssetNodeIds = some [] := by
  have hg3root :
      (generateLayoutGraphConnections (buildModelGraph fl gd)).rootNodes =
        [] := build_rootNodes_nil fl gd
  have hproc := process_eq_populate T fl lf df uf gf gd
  have hg3fresh :
      ∀ n ∈ (generateLayoutGraphConnections (buildModelGraph fl gd)).store,
        FreshNode n := build_fresh fl gd
  have hch3 :
      ∀ n ∈ (generateLayoutGraphConnections (buildModelGraph fl gd)).store,
        n.childrenIds = none := fun n hn => (hg3fresh n hn).2.1
  refine ⟨splitLargeGroupNodes_no_roots T lf df uf _ hg3root, ?_, ?_⟩
  · rw [hproc]
    unfold populateDescendantsAndCounts
    exact (populateAux_frame gf _ _ _ _).1.trans hg3root
  · intro r hr hgrp
    rw [hproc] at hr hgrp ⊢
    unfold populateDescendantsAndCounts at hr hgrp ⊢
    have hframe := populateAux_frame gf
      (generateLayoutGraphConnections (buildModelGraph fl gd)).nodes
      (generateLayoutGraphConnections (buildModelGraph fl gd))
      .maxValue .negInfinity
    have hrg3 : r ∈
        (generateLayoutGraphConnections (buildModelGraph fl gd)).nodes :=
      hframe.2.1 ▸ hr
    have htype := map_getN _ _ ModelNode.nodeType
      (populateAux_store_map ModelNode.nodeType (fun n d1 d2 => rfl) gf
        (generateLayoutGraphConnections (buildModelGraph fl gd)).nodes
        (generateLayoutGraphConnections (buildModelGraph fl gd))
        .maxValue .negInfinity) r
    have hgrp3 := htype.symm.trans hgrp
    have hmain := populateAux_groups_empty gf
      (generateLayoutGraphConnections (buildModelGraph fl gd)).nodes
      (generateLayoutGraphConnections (buildModelGraph fl gd))
      .maxValue .negInfinity hch3 r hrg3 hgrp3
    have hchout := map_getN _ _ ModelNode.childrenIds
      (populateAux_store_map ModelNode.childrenIds (fun n d1 d2 => rfl) gf
        (generateLayoutGraphConnections (buildModelGraph fl gd)).nodes
        (generateLayoutGraphConnections (buildModelGraph fl gd))
        .maxValue .negInfinity) r
    exact ⟨hchout.trans (childrenIds_none_getN _ hch3 r), hmain.1, hmain.2⟩

/-- Witness for C10 on the one-asset input: the group node (reference 1) of
the processed graph has no `childrenIds` and empty descendant lists. -/
theorem c10_groups_childless_witness :
    ((GraphProcessor.process 500 false 30 30 30 30 gdSingle).getN
        1).childrenIds = none ∧
      ((GraphProcessor.process 500 false 30 30 30 30 gdSingle).getN
          1).descendantsNodeIds = some [] ∧
      ((GraphProcessor.process 500 false 30 30 30 30 gdSingle).getN
          1).descendantsAssetNodeIds = some [] :=
  (c10_groups_childless 500 false 30 30 30 30 gdSingle).2.2 1
    (by decide) (by decide)

/-- C5 counterexample: on a one-asset input, `process` leaves `rootNodes`
empty even though reference 0 (the asset) is a listed node with no
`parentId`, so the root-node list is not "exactly the set of nodes that have
no parentId". -/
theorem c5_counterexample :
    (GraphProcessor.process 500 false 30 30 30 30 gdSingle).rootNodes = [] ∧
      0 ∈ (GraphProcessor.process 500 false 30 30 30 30 gdSingle).nodes ∧
      ((GraphProcessor.process 500 false 30 30 30 30 gdSingle).getN
          0).parentId = none := by
  refine ⟨?_, by decide, by decide⟩
  decide

/-- C5 amended: after `process`, every node in `rootNodes` trivially has no
`parentId` because `rootNodes` is empty — while every listed node also has
no `parentId`, so the inclusion is strict on any non-empty input: the
root-node list is a subset of, but not equal to, the parentless nodes. -/
theorem c5_rootNodes_empty_subset (T : Nat) (fl : Bool) (lf df uf gf : Nat)
    (gd : GraphData) :
    (GraphProcessor.process T fl lf df uf gf gd).rootNodes = [] ∧
      ∀ r ∈ (GraphProcessor.process T fl lf df uf gf gd).nodes,
        ((GraphProcessor.process T fl lf df uf gf gd).getN r).parentId =
          none := by
  have hproc := process_eq_populate T fl lf df uf gf gd
  have hg3fresh :
      ∀ n ∈ (generateLayoutGraphConnections (buildModelGraph fl gd)).store,
        FreshNode n := build_fresh fl gd
  constructor
  · rw [hproc]
    unfold populateDescendantsAndCounts
    exact (populateAux_frame gf _ _ _ _).1.trans (build_rootNodes_nil fl gd)
  · intro r hr
    rw [hproc] at hr ⊢
    unfold populateDescendantsAndCounts at hr ⊢
    have hpout := map_getN _ _ ModelNode.parentId
      (populateAux_store_map ModelNode.parentId (fun n d1 d2 => rfl) gf
        (generateLayoutGraphConnections (buildModelGraph fl gd)).nodes
        (generateLayoutGraphConnections (buildModelGraph fl gd))
        .maxValue .negInfinity) r
    refine hpout.trans ?_
    unfold ModelGraph.getN
    cases hg : (generateLayoutGraphConnections
        (buildModelGraph fl gd)).store.get? r with
    | none => rfl
    | some n => exact (hg3fresh n (List.get?_mem hg)).1

/-- Witness for C5's amended statement on the one-asset input. -/
theorem c5_rootNodes_empty_subset_witness :
    (GraphProcessor.process 500 false 30 30 30 30 gdTwoChain).rootNodes =
        [] ∧
      ((GraphProcessor.process 500 false 30 30 30 30 gdTwoChain).getN
          0).parentId = none :=
  ⟨(c5_rootNodes_empty_subset 500 false 30 30 30 30 gdTwoChain).1,
   (c5_rootNodes_empty_subset 500 false 30 30 30 30 gdTwoChain).2 0
     (by decide)⟩

/-! ## C1 and C3: partitioner bounds and re-splitting -/

/-- C1 counterexample: splitting `exampleSplitGraph` (five children, no
edges) with threshold 2 produces three buckets, so group `g` (reference 0)
ends with three direct children — more than the threshold, and not a bucket
of size at most the threshold, refuting the claimed bound. -/
theorem c1_counterexample :
    ¬ PartitionBound 2 (splitLargeGroupNodes 2 30 30 30 exampleSplitGraph) ∧
      (((splitLargeGroupNodes 2 30 30 30 exampleSplitGraph).getN
          0).childrenIds.getD []).length = 3 := by
  constructor
  · decide
  · decide

/-- C3 counterexample: a second Partitioner run on the first run's output
creates further splits (the graph changes again), because the first run left
group `g` with three children while the threshold is 2. -/
theorem c3_counterexample :
    splitLargeGroupNodes 2 30 30 30
        (splitLargeGroupNodes 2 30 30 30 exampleSplitGraph) ≠
      splitLargeGroupNodes 2 30 30 30 exampleSplitGraph := by
  intro h
  have hlen := congrArg (fun gr => gr.store.length) h
  exact absurd hlen (by decide)

theorem store_set_map_eq {β : Type _} (g : ModelGraph) (r : Nat)
    (node n' : ModelNode) (hg : g.store.get? r = some node)
    (p : ModelNode → β) (hp : p n' = p node) :
    (g.store.set r n').map p = g.store.map p := by
  rw [List.map_set, hp]
  exact set_get?_self _ _ _ (by rw [List.get?_map, hg]; rfl)


theorem parentChildFix_secLen (a b : String) (n : ModelNode) :
    secLen (parentChildFix a b n) = secLen n := by
  unfold parentChildFix
  cases hc : n.childrenIds with
  | none => rfl
  | some cids =>
    dsimp only
    cases hf : List.findIdx? (fun c => decide (c = a)) cids with
    | none => rfl
    | some i => simp [secLen, hc, List.length_set]

theorem updateNamespace_secLen (iso : Bool) (pfx : String) :
    ∀ (fuel : Nat) (g : ModelGraph) (r : Nat),
      (updateNamespace iso pfx fuel g r).store.map secLen =
        g.store.map secLen := by
  intro fuel
  induction fuel with
  | zero => intro g r; rfl
  | succ fuel ih =>
    intro g r
    unfold updateNamespace
    cases hg : g.store.get? r with
    | none => rfl
    | some node =>
      dsimp only
      have hset : (g.setStoreAt r (setNsLevel iso pfx node)).store.map
          secLen = g.store.map secLen :=
        store_set_map_eq g r node _ hg secLen rfl
      split
      · refine foldlInvariant
          (fun g' : ModelGraph => g'.store.map secLen = g.store.map secLen)
          _ _ _ ?_ ?_
        · intro g' cid _ hP
          cases hl : g'.lookupRef cid with
          | none => simpa [hl] using hP
          | some cref =>
            simp only [hl]
            refine (ih _ cref).trans (Eq.trans ?_ hP)
            exact modifyNode_store_map g' cref (setParentId _) secLen
              (fun n => rfl)
        · split
          · exact (modifyNode_store_map _ r (setId _) secLen
              (fun n => rfl)).trans hset
          · split
            · exact (modifyNode_store_map _ r (setId _) secLen
                (fun n => rfl)).trans hset
            · cases hl2 : ModelGraph.lookupRef _ _ with
              | none =>
                simp only [hl2]
                exact (modifyNode_store_map _ r (setId _) secLen
                  (fun n => rfl)).trans hset
              | some pref =>
                simp only [hl2]
                refine (modifyNode_store_map _ pref
                  (parentChildFix _ _) secLen
                  (fun n => parentChildFix_secLen _ _ n)).trans ?_
                exact (modifyNode_store_map _ r (setId _) secLen
                  (fun n => rfl)).trans hset
      · exact hset

theorem visit_groups_ok (g : ModelGraph) (lg : LayoutGraph) (T : Nat) :
    ∀ (fuel : Nat) (nodeId : String) (st : DfsState),
      (∀ b ∈ st.groups, 0 < b.length ∧ b.length ≤ T) →
      ∀ b ∈ (visit g lg T fuel nodeId st).groups,
        0 < b.length ∧ b.length ≤ T := by
  intro fuel
  induction fuel with
  | zero => intro nodeId st h; exact h
  | succ fuel ih =>
    intro nodeId st h
    unfold visit
    split
    · exact h
    · cases g.lookupRef nodeId with
      | none => exact h
      | some r =>
        dsimp only
        refine foldlInvariant
          (fun st' : DfsState => ∀ b ∈ st'.groups, 0 < b.length ∧ b.length ≤ T)
          _ _ _ (fun st' cid _ hst' => ih cid st' hst') ?_
        split
        · -- the bucket just flushed has exactly the threshold size and at
          -- least its freshly pushed element
          next hfull =>
            intro b hb
            rcases List.mem_append.mp hb with hb | hb
            · exact h b hb
            · rcases List.mem_singleton.mp hb with rfl
              refine ⟨?_, Nat.le_of_eq hfull⟩
              rw [List.length_append]
              exact Nat.succ_pos _
        · exact h

theorem makeBuckets_ok (g : ModelGraph) (lg : LayoutGraph) (T dfs : Nat) :
    ∀ b ∈ makeBuckets g lg T dfs, 0 < b.length ∧ b.length ≤ T := by
  unfold makeBuckets
  have hst := foldlInvariant
    (fun st : DfsState => ∀ b ∈ st.groups, 0 < b.length ∧ b.length ≤ T)
    (fun st nodeId => visit g lg T dfs nodeId st)
    (lg.nodes.filter (fun nodeId => (lookupAssoc lg.incomingEdges nodeId).isNone))
    { visitedNodeIds := [], curGroup := [], groups := [] }
    (fun st nodeId _ h => visit_groups_ok g lg T dfs nodeId st h)
    (by intro b hb; cases hb)
  dsimp only
  split
  · next hsmall =>
      intro b hb
      rcases List.mem_append.mp hb with hb | hb
      · exact hst b hb
      · rcases List.mem_singleton.mp hb with rfl
        exact ⟨hsmall.2, Nat.le_of_lt hsmall.1⟩
  · exact hst

theorem map_getN_get? {β : Type _} (g g' : ModelGraph) (p : ModelNode → β)
    (h1 : (g'.store.map p).get? r = (g.store.map p).get? r) :
    p (g'.getN r) = p (g.getN r) := by
  rw [List.get?_map, List.get?_map] at h1
  unfold ModelGraph.getN
  cases hg : g'.store.get? r with
  | none =>
    rw [hg] at h1
    cases hg' : g.store.get? r with
    | none => rfl
    | some m => rw [hg'] at h1; cases h1
  | some n =>
    rw [hg] at h1
    cases hg' : g.store.get? r with
    | none => rw [hg'] at h1; cases h1
    | some m =>
      rw [hg'] at h1
      simp only [Option.map_some'] at h1
      simpa using h1

theorem reparent_foldl_secLen (pid : String) (bucket : List Nat)
    (g : ModelGraph) :
    ((bucket.foldl (fun g r => g.modifyNode r (setParentId pid)) g)).store.map
        secLen = g.store.map secLen :=
  foldlInvariant
    (fun g' : ModelGraph => g'.store.map secLen = g.store.map secLen)
    _ bucket g
    (fun g' r _ h =>
      (modifyNode_store_map g' r (setParentId pid) secLen (fun n => rfl)).trans
        h)
    rfl

theorem updateNS_foldl_secLen (iso : Bool) (pfx : String) (uf : Nat)
    (bucket : List Nat) (g : ModelGraph) :
    ((bucket.foldl (fun g r => updateNamespace iso pfx uf g r) g)).store.map
        secLen = g.store.map secLen :=
  foldlInvariant
    (fun g' : ModelGraph => g'.store.map secLen = g.store.map secLen)
    _ bucket g
    (fun g' r _ h => (updateNamespace_secLen iso pfx uf g' r).trans h)
    rfl

theorem removeRoots_foldl_store (bucket : List Nat) (g : ModelGraph) :
    ((bucket.foldl (fun g r =>
        ({ g with rootNodes := removeFirst g.rootNodes r } : ModelGraph))
      g)).store = g.store :=
  foldlInvariant (fun g' : ModelGraph => g'.store = g.store) _ bucket g
    (fun g' r _ h => h) rfl

theorem addNode_artificial_secLen (g : ModelGraph) (node : ModelNode)
    (arti : Option (List String)) :
    (({ (g.addNodeR node).1 with artificialGroupNodeIds := arti }
      : ModelGraph)).store.map secLen = g.store.map secLen ++ [secLen node] := by
  show (g.store ++ [node]).map secLen = _
  simp

theorem createSectionsAux_secLen (T : Nat) (cg : Option Nat)
    (total uf : Nat) :
    ∀ (buckets : List (List Nat)) (i : Nat) (g : ModelGraph)
      (secRefs : List Nat),
      (∀ b ∈ buckets, 0 < b.length ∧ b.length ≤ T) →
      ∃ suffix,
        (createSectionsAux cg total uf buckets i g secRefs).1.store.map
            secLen = g.store.map secLen ++ suffix ∧
          ∀ v ∈ suffix, v.1 = true → 0 < v.2 ∧ v.2 ≤ T := by
  intro buckets
  induction buckets with
  | nil =>
    intro i g secRefs _
    exact ⟨[], by simp [createSectionsAux], by intro v hv; cases hv⟩
  | cons bucket more ih =>
    intro i g secRefs hb
    have hbucket := hb bucket (List.mem_cons_self _ _)
    have hmore : ∀ b ∈ more, 0 < b.length ∧ b.length ≤ T :=
      fun b h => hb b (List.mem_cons_of_mem _ h)
    unfold createSectionsAux
    cases cg with
    | some r0 =>
      dsimp only
      obtain ⟨s', hs', hgood'⟩ := ih (i + 1) _ (secRefs ++ [_]) hmore
      refine ⟨(true, bucket.length) :: s', ?_, ?_⟩
      · rw [hs', updateNS_foldl_secLen, reparent_foldl_secLen,
          addNode_artificial_secLen]
        simp [secLen]
      · intro v hv hv1
        rcases List.mem_cons.mp hv with rfl | hv
        · exact ⟨hbucket.1, hbucket.2⟩
        · exact hgood' v hv hv1
    | none =>
      dsimp only
      split
      · obtain ⟨s', hs', hgood'⟩ := ih (i + 1) _ (secRefs ++ [_]) hmore
        refine ⟨(true, bucket.length) :: s', ?_, ?_⟩
        · rw [hs']
          dsimp only
          rw [removeRoots_foldl_store, updateNS_foldl_secLen,
            reparent_foldl_secLen, addNode_artificial_secLen]
          simp [secLen]
        · intro v hv hv1
          rcases List.mem_cons.mp hv with rfl | hv
          · exact ⟨hbucket.1, hbucket.2⟩
          · exact hgood' v hv hv1
      · obtain ⟨s', hs', hgood'⟩ := ih (i + 1) _ (secRefs ++ [_]) hmore
        refine ⟨(true, bucket.length) :: s', ?_, ?_⟩
        · rw [hs']
          rw [removeRoots_foldl_store, updateNS_foldl_secLen,
            reparent_foldl_secLen, addNode_artificial_secLen]
          simp [secLen]
        · intro v hv hv1
          rcases List.mem_cons.mp hv with rfl | hv
          · exact ⟨hbucket.1, hbucket.2⟩
          · exact hgood' v hv hv1

theorem sectionsOK_of_suffix (T : Nat) (g g' : ModelGraph)
    (suffix : List (Bool × Nat))
    (hmap : g'.store.map secLen = g.store.map secLen ++ suffix)
    (hgood : ∀ v ∈ suffix, v.1 = true → 0 < v.2 ∧ v.2 ≤ T)
    (hg : SectionsOK T g) : SectionsOK T g' := by
  intro n hn hsec
  have hmem : secLen n ∈ g.store.map secLen ++ suffix :=
    hmap ▸ List.mem_map_of_mem secLen hn
  rcases List.mem_append.mp hmem with hmem | hmem
  · obtain ⟨m, hm, hsm⟩ := List.mem_map.mp hmem
    have h1 : m.sectionContainer = n.sectionContainer := by
      have := congrArg Prod.fst hsm; simpa [secLen] using this
    have h2 : (m.childrenIds.getD []).length =
        (n.childrenIds.getD []).length := by
      have := congrArg Prod.snd hsm; simpa [secLen] using this
    have := hg m hm (h1.trans hsec)
    exact ⟨h2 ▸ this.1, h2 ▸ this.2⟩
  · exact hgood (secLen n) hmem hsec

theorem sectionsOK_modify_nonsection (T : Nat) (g : ModelGraph) (r : Nat)
    (f : ModelNode → ModelNode)
    (hf : ∀ n, (f n).sectionContainer = n.sectionContainer)
    (hns : (g.getN r).sectionContainer = false)
    (h : SectionsOK T g) : SectionsOK T (g.modifyNode r f) := by
  unfold ModelGraph.modifyNode
  cases hgr : g.store.get? r with
  | none => exact h
  | some m2 =>
    intro n hn hsec
    rcases List.mem_or_eq_of_mem_set hn with hn | rfl
    · exact h n hn hsec
    · exfalso
      have hgm : g.getN r = m2 := by unfold ModelGraph.getN; rw [hgr]; rfl
      rw [hf m2] at hsec
      rw [hgm] at hns
      rw [hns] at hsec
      cases hsec

theorem splitStep_sections (T df uf : Nat) (g : ModelGraph)
    (cg : Option Nat) (h : SectionsOK T g) :
    SectionsOK T (splitStep T df uf g cg).1 := by
  unfold splitStep
  cases cg with
  | none =>
    dsimp only
    split
    · obtain ⟨suffix, hsfx, hgood⟩ := createSectionsAux_secLen T none
        (makeBuckets g (getLayoutGraph g g.rootNodes) T df).length uf
        (makeBuckets g (getLayoutGraph g g.rootNodes) T df) 0 g []
        (makeBuckets_ok g (getLayoutGraph g g.rootNodes) T df)
      exact sectionsOK_of_suffix T g _ suffix hsfx hgood h
    · exact h
  | some r =>
    dsimp only
    split
    · next hbig =>
        obtain ⟨suffix, hsfx, hgood⟩ := createSectionsAux_secLen T (some r)
          (makeBuckets g (getLayoutGraph g
            (((g.getN r).childrenIds.getD []).filterMap g.lookupRef)) T
            df).length uf
          (makeBuckets g (getLayoutGraph g
            (((g.getN r).childrenIds.getD []).filterMap g.lookupRef)) T df)
          0 g []
          (makeBuckets_ok g _ T df)
        have hOK1 := sectionsOK_of_suffix T g _ suffix hsfx hgood h
        -- the split group itself is not a section container: its raw child
        -- list is longer than the threshold, which `SectionsOK` forbids
        have hraw : T < ((g.getN r).childrenIds.getD []).length :=
          Nat.lt_of_lt_of_le hbig (List.length_filterMap_le _ _)
        have hvalid : ∃ m, g.store.get? r = some m := by
          cases hg2 : g.store.get? r with
          | none =>
            exfalso
            unfold ModelGraph.getN at hraw
            rw [hg2] at hraw
            exact absurd hraw (Nat.not_lt_zero T)
          | some m => exact ⟨m, rfl⟩
        obtain ⟨m, hm⟩ := hvalid
        have hgm : g.getN r = m := by unfold ModelGraph.getN; rw [hm]; rfl
        have hmsec : m.sectionContainer = false := by
          cases hval : m.sectionContainer with
          | false => rfl
          | true =>
            exfalso
            have hle := (h m (List.get?_mem hm) hval).2
            rw [hgm] at hraw
            exact absurd hraw (Nat.not_lt.mpr hle)
        have hrlen : r < g.store.length := by
          cases hlt : decide (r < g.store.length) with
          | true => exact of_decide_eq_true hlt
          | false =>
            exfalso
            have := List.get?_eq_none.mpr
              (Nat.le_of_not_lt (of_decide_eq_false hlt))
            rw [this] at hm; cases hm
        have hsecr : secLen ((createSectionsAux (some r)
            (makeBuckets g (getLayoutGraph g
              (((g.getN r).childrenIds.getD []).filterMap g.lookupRef)) T
              df).length uf
            (makeBuckets g (getLayoutGraph g
              (((g.getN r).childrenIds.getD []).filterMap g.lookupRef)) T
              df) 0 g []).1.getN r) = secLen (g.getN r) := by
          refine map_getN_get? _ _ secLen ?_
          rw [hsfx]
          exact List.get?_append (by simpa using hrlen)
        have hfst : ((createSectionsAux (some r)
            (makeBuckets g (getLayoutGraph g
              (((g.getN r).childrenIds.getD []).filterMap g.lookupRef)) T
              df).length uf
            (makeBuckets g (getLayoutGraph g
              (((g.getN r).childrenIds.getD []).filterMap g.lookupRef)) T
              df) 0 g []).1.getN r).sectionContainer = false := by
          have h1 : ((createSectionsAux (some r)
              (makeBuckets g (getLayoutGraph g
                (((g.getN r).childrenIds.getD []).filterMap g.lookupRef)) T
                df).length uf
              (makeBuckets g (getLayoutGraph g
                (((g.getN r).childrenIds.getD []).filterMap g.lookupRef)) T
                df) 0 g []).1.getN r).sectionContainer =
              (g.getN r).sectionContainer := by
            have := congrArg Prod.fst hsecr
            simpa [secLen] using this
          rw [h1, hgm]
          exact hmsec
        exact sectionsOK_modify_nonsection T _ r
          (setChildrenIds _) (fun n => rfl) hfst hOK1
    · exact h

theorem splitLoop_sections (T df uf : Nat) :
    ∀ (fuel : Nat) (g : ModelGraph) (q : List (Option Nat)) (flag : Bool),
      SectionsOK T g → SectionsOK T (splitLoop T df uf fuel g q flag).1 := by
  intro fuel
  induction fuel with
  | zero => intro g q flag h; exact h
  | succ fuel ih =>
    intro g q flag h
    cases q with
    | nil => exact h
    | cons cg rest =>
      unfold splitLoop
      dsimp only
      exact ih _ _ _ (splitStep_sections T df uf g cg h)

/-- C1 amended: the Partitioner keeps every artificial section group's
child list non-empty and within the threshold (given that pre-existing
sections already satisfy the bound — builder output contains none); the
bound claimed for *every* group fails, because a split group's new child
count is its bucket count (see the counterexample). -/
theorem c1_sections_bounded (T lf df uf : Nat) (g : ModelGraph)
    (h : SectionsOK T g) :
    SectionsOK T (splitLargeGroupNodes T lf df uf g) := by
  unfold splitLargeGroupNodes
  dsimp only
  split
  · exact splitLoop_sections T df uf lf g [none] false h
  · exact splitLoop_sections T df uf lf g [none] false h

/-- Witness for C1's amended statement: the example graph has no sections,
and after the threshold-2 split every section created satisfies the bound. -/
theorem c1_sections_bounded_witness :
    SectionsOK 2 exampleSplitGraph ∧
      SectionsOK 2 (splitLargeGroupNodes 2 30 30 30 exampleSplitGraph) :=
  ⟨by decide, c1_sections_bounded 2 30 30 30 exampleSplitGraph (by decide)⟩

theorem childLen_le_getN (T : Nat) (g : ModelGraph)
    (h : ∀ n ∈ g.store, (n.childrenIds.getD []).length ≤ T) (r : Nat) :
    ((g.getN r).childrenIds.getD []).length ≤ T := by
  unfold ModelGraph.getN
  cases hg : g.store.get? r with
  | none => exact Nat.zero_le T
  | some n => exact h n (List.get?_mem hg)

theorem splitStep_small (T df uf : Nat) (g : ModelGraph) (cg : Option Nat)
    (h : NoLargeGroups T g) :
    (splitStep T df uf g cg).1 = g ∧ (splitStep T df uf g cg).2.2 = false := by
  unfold splitStep
  cases cg with
  | none =>
    dsimp only
    rw [if_neg (Nat.not_lt.mpr h.1)]
    exact ⟨rfl, rfl⟩
  | some r =>
    dsimp only
    rw [if_neg (Nat.not_lt.mpr (Nat.le_trans (List.length_filterMap_le _ _)
      (childLen_le_getN T g h.2 r)))]
    exact ⟨rfl, rfl⟩

theorem splitLoop_small (T df uf : Nat) (g : ModelGraph)
    (h : NoLargeGroups T g) :
    ∀ (fuel : Nat) (q : List (Option Nat)) (flag : Bool),
      splitLoop T df uf fuel g q flag = (g, flag) := by
  intro fuel
  induction fuel with
  | zero => intro q flag; rfl
  | succ fuel ih =>
    intro q flag
    cases q with
    | nil => rfl
    | cons cg rest =>
      unfold splitLoop
      dsimp only
      rw [(splitStep_small T df uf g cg h).1, (splitStep_small T df uf g cg h).2]
      rw [Bool.or_false]
      exact ih _ flag

/-- C3 amended: on a graph whose root list and child lists all stay within
the threshold, the Partitioner changes nothing — so a second run is a no-op
exactly when the first run's output still satisfies the bound.  A first run
can violate the bound (a split group keeps one child per bucket), and then a
second run splits again (see the counterexample). -/
theorem c3_resplit_identity (T lf df uf : Nat) (g : ModelGraph)
    (h : NoLargeGroups T g) : splitLargeGroupNodes T lf df uf g = g := by
  unfold splitLargeGroupNodes
  dsimp only
  rw [splitLoop_small T df uf g h lf [none] false]
  rfl

/-- Witness for C3's amended statement: with threshold 500 the example graph
is already within bounds and the Partitioner returns it unchanged. -/
theorem c3_resplit_identity_witness :
    NoLargeGroups 500 exampleSplitGraph ∧
      splitLargeGroupNodes 500 30 30 30 exampleSplitGraph =
        exampleSplitGraph :=
  ⟨by decide, c3_resplit_identity 500 30 30 30 exampleSplitGraph (by decide)⟩

/-! ## C7: descendant consistency -/

theorem jsLe_refl (a : JsNum) : jsLe a a = true := by
  cases a <;> simp [jsLe]

theorem jsLe_trans (a b c : JsNum) (h1 : jsLe a b = true)
    (h2 : jsLe b c = true) : jsLe a c = true := by
  cases a <;> cases b <;> cases c <;> simp_all [jsLe] <;> omega

theorem jsMinCount_le (n : Nat) (v : JsNum) :
    jsLe (jsMinCount n v) v = true := by
  cases v with
  | finite i =>
    show jsLe (if (n : Int) ≤ i then .finite n else .finite i)
      (.finite i) = true
    by_cases hle : (n : Int) ≤ i
    · rw [if_pos hle]; simpa [jsLe] using hle
    · rw [if_neg hle]; exact jsLe_refl _
  | maxValue => simp [jsMinCount, jsLe]
  | negInfinity => simp [jsMinCount, jsLe]

theorem jsMinCount_le_count (n : Nat) (v : JsNum) :
    jsLe (jsMinCount n v) (.finite n) = true := by
  cases v with
  | finite i =>
    show jsLe (if (n : Int) ≤ i then .finite n else .finite i)
      (.finite n) = true
    by_cases hle : (n : Int) ≤ i
    · rw [if_pos hle]; exact jsLe_refl _
    · rw [if_neg hle]; simp [jsLe]; omega
  | maxValue => exact jsLe_refl _
  | negInfinity => simp [jsMinCount, jsLe]

theorem jsMaxCount_ge (n : Nat) (v : JsNum) :
    jsLe v (jsMaxCount n v) = true := by
  cases v with
  | finite i =>
    show jsLe (.finite i) (if i ≤ (n : Int) then .finite n else .finite i) =
      true
    by_cases hle : i ≤ (n : Int)
    · rw [if_pos hle]; simpa [jsLe] using hle
    · rw [if_neg hle]; exact jsLe_refl _
  | maxValue => simp [jsMaxCount, jsLe]
  | negInfinity => simp [jsMaxCount, jsLe]

theorem jsMaxCount_ge_count (n : Nat) (v : JsNum) :
    jsLe (.finite n) (jsMaxCount n v) = true := by
  cases v with
  | finite i =>
    show jsLe (.finite n) (if i ≤ (n : Int) then .finite n else .finite i) =
      true
    by_cases hle : i ≤ (n : Int)
    · rw [if_pos hle]; exact jsLe_refl _
    · rw [if_neg hle]; simp [jsLe]; omega
  | maxValue => simp [jsMaxCount, jsLe]
  | negInfinity => exact jsLe_refl _

theorem populateAux_acc_monotone (f : Nat) (rs : List Nat) :
    ∀ (g : ModelGraph) (mn mx : JsNum),
      jsLe (populateAux f rs g mn mx).minDescendantAssetNodeCount mn = true ∧
        jsLe mx (populateAux f rs g mn mx).maxDescendantAssetNodeCount =
          true := by
  induction rs with
  | nil => intro g mn mx; exact ⟨jsLe_refl mn, jsLe_refl mx⟩
  | cons r0 rest ih =>
    intro g mn mx
    unfold populateAux
    split
    · dsimp only
      obtain ⟨h1, h2⟩ := ih (g.modifyNode r0 (setDescFields _ _))
        (jsMinCount _ mn) (jsMaxCount _ mx)
      exact ⟨jsLe_trans _ _ _ h1 (jsMinCount_le _ mn),
             jsLe_trans _ _ _ (jsMaxCount_ge _ mx) h2⟩
    · exact ih g mn mx

theorem populateAux_consistency (f : Nat) (rs : List Nat) :
    ∀ (g : ModelGraph) (mn mx : JsNum), ∀ r ∈ rs,
      (g.getN r).nodeType = .groupNode →
      ∃ dIds dAssetIds,
        ((populateAux f rs g mn mx).getN r).descendantsNodeIds = some dIds ∧
        ((populateAux f rs g mn mx).getN r).descendantsAssetNodeIds =
          some dAssetIds ∧
        dAssetIds ⊆ dIds ∧
        jsLe (populateAux f rs g mn mx).minDescendantAssetNodeCount
          (.finite dAssetIds.length) = true ∧
        jsLe (.finite dAssetIds.length)
          (populateAux f rs g mn mx).maxDescendantAssetNodeCount = true := by
  induction rs with
  | nil =>
    intro g mn mx r hr
    cases hr
  | cons r0 rest ih =>
    intro g mn mx r hr hgrp
    unfold populateAux
    by_cases h0 : (g.getN r0).nodeType = .groupNode
    · rw [if_pos h0]
      dsimp only
      have htype : ∀ r', ((g.modifyNode r0 (setDescFields
          ((gatherDescendants g f r0).map (fun dr => (g.getN dr).id))
          (((gatherDescendants g f r0).filter
            (fun dr => (g.getN dr).nodeType = .assetNode)).map
              (fun dr => (g.getN dr).id)))).getN r').nodeType =
          (g.getN r').nodeType := fun r' =>
        map_getN g _ ModelNode.nodeType
          (modifyNode_store_map g r0 _ ModelNode.nodeType
            (setDescFields_nodeType _ _)) r'
      rcases List.mem_cons.mp hr with rfl | hrest
      · by_cases hmem : r ∈ rest
        · exact ih _ _ _ r hmem ((htype r).trans hgrp)
        · have hvalid : ∃ n, g.store.get? r = some n := by
            cases hg : g.store.get? r with
            | none =>
              exfalso
              unfold ModelGraph.getN at h0
              rw [hg] at h0
              exact absurd h0 (by decide)
            | some n => exact ⟨n, rfl⟩
          obtain ⟨n, hn⟩ := hvalid
          refine ⟨(gatherDescendants g f r).map (fun dr => (g.getN dr).id),
            ((gatherDescendants g f r).filter
              (fun dr => (g.getN dr).nodeType = .assetNode)).map
                (fun dr => (g.getN dr).id), ?_, ?_, ?_, ?_, ?_⟩
          · unfold ModelGraph.getN
            rw [populateAux_get?_notMem f rest _ _ _ r hmem,
              modifyNode_store_get?_same g r _ n hn]
            rfl
          · unfold ModelGraph.getN
            rw [populateAux_get?_notMem f rest _ _ _ r hmem,
              modifyNode_store_get?_same g r _ n hn]
            rfl
          · exact List.map_subset _ (fun x hx => List.mem_of_mem_filter hx)
          · exact jsLe_trans _ _ _
              (populateAux_acc_monotone f rest _ _ _).1
              (jsMinCount_le_count _ mn)
          · exact jsLe_trans _ _ _ (jsMaxCount_ge_count _ mx)
              (populateAux_acc_monotone f rest _ _ _).2
      · exact ih _ _ _ r hrest ((htype r).trans hgrp)
    · rw [if_neg h0]
      rcases List.mem_cons.mp hr with rfl | hrest
      · exact absurd hgrp h0
      · exact ih g mn mx r hrest hgrp

/-- C7: after `populateDescendantsAndCounts`, every group node's
`descendantsAssetNodeIds` is a subset of its `descendantsNodeIds`, and its
length lies between the graph's `minDescendantAssetNodeCount` and
`maxDescendantAssetNodeCount`. -/
theorem c7_descendant_consistency (gatherFuel : Nat) (g : ModelGraph)
    (r : Nat) (hr : r ∈ (populateDescendantsAndCounts gatherFuel g).nodes)
    (hgrp : ((populateDescendantsAndCounts gatherFuel g).getN r).nodeType =
      .groupNode) :
    ∃ dIds dAssetIds,
      ((populateDescendantsAndCounts gatherFuel g).getN
          r).descendantsNodeIds = some dIds ∧
      ((populateDescendantsAndCounts gatherFuel g).getN
          r).descendantsAssetNodeIds = some dAssetIds ∧
      dAssetIds ⊆ dIds ∧
      jsLe (populateDescendantsAndCounts gatherFuel
          g).minDescendantAssetNodeCount (.finite dAssetIds.length) = true ∧
      jsLe (.finite dAssetIds.length)
        (populateDescendantsAndCounts gatherFuel
          g).maxDescendantAssetNodeCount = true := by
  unfold populateDescendantsAndCounts at hr hgrp ⊢
  have hframe := populateAux_frame gatherFuel g.nodes g .maxValue .negInfinity
  have hrg : r ∈ g.nodes := hframe.2.1 ▸ hr
  have htype := map_getN _ _ ModelNode.nodeType
    (populateAux_store_map ModelNode.nodeType (fun n d1 d2 => rfl)
      gatherFuel g.nodes g .maxValue .negInfinity) r
  exact populateAux_consistency gatherFuel g.nodes g .maxValue .negInfinity
    r hrg (htype.symm.trans hgrp)

/-- Witness for C7 on the processed two-asset chain: its group node sits at
reference 1. -/
theorem c7_descendant_consistency_witness :
    ∃ dIds dAssetIds,
      ((populateDescendantsAndCounts 30
          (buildModelGraph false gdTwoChain)).getN
          1).descendantsNodeIds = some dIds ∧
      ((populateDescendantsAndCounts 30
          (buildModelGraph false gdTwoChain)).getN
          1).descendantsAssetNodeIds = some dAssetIds ∧
      dAssetIds ⊆ dIds ∧
      jsLe (populateDescendantsAndCounts 30
          (buildModelGraph false gdTwoChain)).minDescendantAssetNodeCount
        (.finite dAssetIds.length) = true ∧
      jsLe (.finite dAssetIds.length)
        (populateDescendantsAndCounts 30
          (buildModelGraph false gdTwoChain)).maxDescendantAssetNodeCount =
          true :=
  c7_descendant_consistency 30 (buildModelGraph false gdTwoChain) 1
    (by decide) (by decide)

/-! ## C2: symmetric, de-duplicated edge registration -/

theorem lookupRef_lt (g : ModelGraph) (k : String) (r : Nat)
    (hk : g.lookupRef k = some r) : r < g.store.length := by
  unfold ModelGraph.lookupRef at hk
  cases hl : lookupAssoc g.nodesById k with
  | none => rw [hl] at hk; cases hk
  | some r' =>
    rw [hl] at hk
    dsimp only at hk
    by_cases hlt : r' < g.store.length
    · rw [if_pos hlt] at hk; cases hk; exact hlt
    · rw [if_neg hlt] at hk; cases hk

theorem idIndex_of_wf (g : ModelGraph) (h : WfIndex g) (k : String) (r : Nat)
    (hk : g.lookupRef k = some r) : (g.getN r).id = k := by
  unfold ModelGraph.lookupRef at hk
  cases hl : lookupAssoc g.nodesById k with
  | none => rw [hl] at hk; cases hk
  | some r' =>
    rw [hl] at hk
    dsimp only at hk
    by_cases hlt : r' < g.store.length
    · rw [if_pos hlt] at hk
      cases hk
      unfold lookupAssoc at hl
      cases hf : g.nodesById.find? (fun p => p.1 = k) with
      | none => rw [hf] at hl; cases hl
      | some p =>
        rw [hf] at hl
        simp only [Option.map_some'] at hl
        cases hl
        have hmem := List.mem_of_find?_eq_some hf
        have hkey : p.1 = k := by simpa using List.find?_some hf
        obtain ⟨-, hid⟩ := h p hmem
        exact hkey ▸ hid
    · rw [if_neg hlt] at hk; cases hk

theorem mem_recordSet {α : Type} (m : List (String × α)) (k : String) (v : α)
    (p : String × α) (hp : p ∈ recordSet m k v) : p ∈ m ∨ p = (k, v) := by
  unfold recordSet at hp
  by_cases hc : m.any (fun q => q.1 = k) = true
  · rw [if_pos hc] at hp
    obtain ⟨q, hq, hfq⟩ := List.mem_map.mp hp
    by_cases hqk : q.1 = k
    · rw [if_pos hqk] at hfq; exact Or.inr hfq.symm
    · rw [if_neg hqk] at hfq; exact Or.inl (hfq ▸ hq)
  · rw [if_neg hc] at hp
    rcases List.mem_append.mp hp with h | h
    · exact Or.inl h
    · right; simpa using h

theorem addNodeR_wfIndex (g : ModelGraph) (n : ModelNode) (h : WfIndex g) :
    WfIndex (g.addNodeR n).1 := by
  unfold WfIndex at h ⊢
  intro p hp
  unfold ModelGraph.addNodeR at hp ⊢
  dsimp only at hp ⊢
  rcases mem_recordSet _ _ _ _ hp with hp' | rfl
  · obtain ⟨hlt, hid⟩ := h p hp'
    refine ⟨?_, ?_⟩
    · rw [List.length_append]
      exact Nat.lt_of_lt_of_le hlt (Nat.le_add_right _ _)
    · show (ModelGraph.getN _ p.2).id = p.1
      unfold ModelGraph.getN at hid ⊢
      dsimp only
      rw [List.get?_append hlt]
      exact hid
  · refine ⟨?_, ?_⟩
    · rw [List.length_append]
      exact Nat.lt_succ_self _
    · show (ModelGraph.getN _ g.store.length).id = n.id
      unfold ModelGraph.getN
      dsimp only
      rw [List.get?_concat_length]
      rfl

theorem processNodes_wfIndex (fl : Bool) (graph : GraphData) :
    WfIndex (processNodes fl graph createEmptyModelGraph) := by
  unfold processNodes
  refine foldlInvariant (fun st : ModelGraph × List String => WfIndex st.1)
    (processOneNode fl) graph.nodes (createEmptyModelGraph, []) ?_ ?_
  · intro s a _ hP
    unfold processOneNode
    dsimp only
    split
    · split
      · exact addNodeR_wfIndex _ _ hP
      · exact addNodeR_wfIndex _ _ (addNodeR_wfIndex _ _ hP)
    · exact addNodeR_wfIndex _ _ hP
  · dsimp only
    decide

theorem wfIndex_of_edgeSkeleton (g g' : ModelGraph)
    (h : edgeSkeleton g' = edgeSkeleton g) (hg : WfIndex g) : WfIndex g' := by
  have hmap : g'.store.map stripEdges = g.store.map stripEdges :=
    congrArg ModelGraph.store h
  have hids : g'.store.map ModelNode.id = g.store.map ModelNode.id := by
    have h1 := congrArg (List.map ModelNode.id) hmap
    rw [List.map_map, List.map_map] at h1
    exact h1
  have hnb : g'.nodesById = g.nodesById := by
    have h3 := congrArg ModelGraph.nodesById h
    exact h3
  have hlen : g'.store.length = g.store.length := by
    have h2 := congrArg List.length hmap
    simpa using h2
  unfold WfIndex at hg ⊢
  intro p hp
  rw [hnb] at hp
  obtain ⟨h1, h2⟩ := hg p hp
  exact ⟨hlen ▸ h1, (map_getN g g' ModelNode.id hids p.2).trans h2⟩

theorem build_wfIndex (fl : Bool) (gd : GraphData) :
    WfIndex (buildModelGraph fl gd) := by
  unfold buildModelGraph
  exact wfIndex_of_edgeSkeleton _ _
    (processEdgeRelationships_edgeSkeleton gd _)
    (processNodes_wfIndex fl gd)

theorem addIncoming_incoming (s tid : String) (n : ModelNode) :
    (addIncoming s tid n).incomingEdges =
      some (pushEdgeSource (n.incomingEdges.getD []) s tid) := rfl

theorem addOutgoing_outgoing (s nid : String) (n : ModelNode) :
    (addOutgoing s nid n).outgoingEdges =
      some (pushEdgeTarget (n.outgoingEdges.getD []) s nid) := rfl

theorem any_pushEdgeSource (l : List Edge) (s tid w : String) :
    ((pushEdgeSource l s tid).any (fun e => e.sourceNodeId = w) = true) ↔
      (l.any (fun e => e.sourceNodeId = w) = true ∨ w = s) := by
  unfold pushEdgeSource
  by_cases hp : l.any (fun e => e.sourceNodeId = s) = true
  · rw [if_pos hp]
    constructor
    · exact Or.inl
    · rintro (h | rfl)
      · exact h
      · exact hp
  · rw [if_neg hp]
    rw [List.any_append]
    simp only [List.any_cons, List.any_nil, Bool.or_false, Bool.or_eq_true,
      decide_eq_true_eq]
    constructor
    · rintro (h | h)
      · exact Or.inl h
      · exact Or.inr h.symm
    · rintro (h | rfl)
      · exact Or.inl h
      · exact Or.inr rfl

theorem any_pushEdgeTarget (l : List Edge) (s nid w : String) :
    ((pushEdgeTarget l s nid).any (fun e => e.targetNodeId = w) = true) ↔
      (l.any (fun e => e.targetNodeId = w) = true ∨ w = nid) := by
  unfold pushEdgeTarget
  by_cases hp : l.any (fun e => e.targetNodeId = nid) = true
  · rw [if_pos hp]
    constructor
    · exact Or.inl
    · rintro (h | rfl)
      · exact h
      · exact hp
  · rw [if_neg hp]
    rw [List.any_append]
    simp only [List.any_cons, List.any_nil, Bool.or_false, Bool.or_eq_true,
      decide_eq_true_eq]
    constructor
    · rintro (h | h)
      · exact Or.inl h
      · exact Or.inr h.symm
    · rintro (h | rfl)
      · exact Or.inl h
      · exact Or.inr rfl

theorem count_pushEdgeSource (l : List Edge) (s tid w : String)
    (h : (l.filter (fun e => e.sourceNodeId = w)).length ≤ 1) :
    ((pushEdgeSource l s tid).filter
      (fun e => e.sourceNodeId = w)).length ≤ 1 := by
  unfold pushEdgeSource
  by_cases hp : l.any (fun e => e.sourceNodeId = s) = true
  · rw [if_pos hp]; exact h
  · rw [if_neg hp]
    rw [List.filter_append, List.length_append]
    have hfalse : l.any (fun e => e.sourceNodeId = s) = false :=
      Bool.eq_false_iff.mpr hp
    by_cases hw : w = s
    · subst hw
      have hnil : l.filter (fun e => e.sourceNodeId = w) = [] :=
        List.filter_eq_nil.mpr (fun e he => by
          have := List.any_eq_false.mp hfalse e he
          simpa using this)
      rw [hnil]
      simp
    · have hsw : ¬ (s = w) := fun hh => hw hh.symm
      have hnil : (([{ sourceNodeId := s, targetNodeId := tid }] :
          List Edge).filter (fun e => e.sourceNodeId = w)) = [] := by
        simp [List.filter, hsw]
      rw [hnil]
      simpa using h

theorem count_pushEdgeTarget (l : List Edge) (s nid w : String)
    (h : (l.filter (fun e => e.targetNodeId = w)).length ≤ 1) :
    ((pushEdgeTarget l s nid).filter
      (fun e => e.targetNodeId = w)).length ≤ 1 := by
  unfold pushEdgeTarget
  by_cases hp : l.any (fun e => e.targetNodeId = nid) = true
  · rw [if_pos hp]; exact h
  · rw [if_neg hp]
    rw [List.filter_append, List.length_append]
    have hfalse : l.any (fun e => e.targetNodeId = nid) = false :=
      Bool.eq_false_iff.mpr hp
    by_cases hw : w = nid
    · subst hw
      have hnil : l.filter (fun e => e.targetNodeId = w) = [] :=
        List.filter_eq_nil.mpr (fun e he => by
          have := List.any_eq_false.mp hfalse e he
          simpa using this)
      rw [hnil]
      simp
    · have hsw : ¬ (nid = w) := fun hh => hw hh.symm
      have hnil : (([{ targetNodeId := nid, sourceNodeId := s }] :
          List Edge).filter (fun e => e.targetNodeId = w)) = [] := by
        simp [List.filter, hsw]
      rw [hnil]
      simpa using h

theorem pp_lookupRef (g : ModelGraph) (tid s : String) (nr sr : Nat)
    (k : String) :
    ((g.modifyNode nr (addIncoming s tid)).modifyNode sr
        (addOutgoing s tid)).lookupRef k = g.lookupRef k :=
  (modifyNode_lookupRef _ sr _ k).trans (modifyNode_lookupRef g nr _ k)

theorem pp_out_ne (g : ModelGraph) (tid s : String) (nr sr ra : Nat)
    (hra : ra ≠ sr) :
    (((g.modifyNode nr (addIncoming s tid)).modifyNode sr
        (addOutgoing s tid)).getN ra).outgoingEdges =
      (g.getN ra).outgoingEdges := by
  have h2 := modifyNode_getN_ne (g.modifyNode nr (addIncoming s tid)) sr
    (addOutgoing s tid) ra (fun hh => hra hh.symm)
  rw [h2]
  exact map_getN g _ ModelNode.outgoingEdges
    (modifyNode_store_map g nr (addIncoming s tid) ModelNode.outgoingEdges
      (fun n => rfl)) ra

theorem pp_in_ne (g : ModelGraph) (tid s : String) (nr sr rb : Nat)
    (hrb : rb ≠ nr) :
    (((g.modifyNode nr (addIncoming s tid)).modifyNode sr
        (addOutgoing s tid)).getN rb).incomingEdges =
      (g.getN rb).incomingEdges := by
  have h2 := map_getN (g.modifyNode nr (addIncoming s tid)) _
    ModelNode.incomingEdges
    (modifyNode_store_map (g.modifyNode nr (addIncoming s tid)) sr
      (addOutgoing s tid) ModelNode.incomingEdges (fun n => rfl)) rb
  rw [h2]
  have h3 := modifyNode_getN_ne g nr (addIncoming s tid) rb
    (fun hh => hrb hh.symm)
  rw [h3]

theorem pp_out_sr (g : ModelGraph) (tid s : String) (nr sr : Nat)
    (hs : g.lookupRef s = some sr) :
    (((g.modifyNode nr (addIncoming s tid)).modifyNode sr
        (addOutgoing s tid)).getN sr).outgoingEdges =
      some (pushEdgeTarget ((g.getN sr).outgoingEdges.getD []) s tid) := by
  have hlt : sr < g.store.length := lookupRef_lt g s sr hs
  have hlt1 : sr < (g.modifyNode nr (addIncoming s tid)).store.length := by
    rw [modifyNode_store_length]; exact hlt
  have hm : (g.modifyNode nr (addIncoming s tid)).store.get? sr =
      some ((g.modifyNode nr (addIncoming s tid)).store.get ⟨sr, hlt1⟩) :=
    List.get?_eq_get hlt1
  have hg2 := modifyNode_getN_same (g.modifyNode nr (addIncoming s tid)) sr
    (addOutgoing s tid) _ hm
  rw [hg2, addOutgoing_outgoing]
  have hgn : (g.modifyNode nr (addIncoming s tid)).getN sr =
      (g.modifyNode nr (addIncoming s tid)).store.get ⟨sr, hlt1⟩ := by
    unfold ModelGraph.getN; rw [hm]; rfl
  have hout1 : ((g.modifyNode nr (addIncoming s tid)).getN sr).outgoingEdges =
      (g.getN sr).outgoingEdges :=
    map_getN g _ ModelNode.outgoingEdges
      (modifyNode_store_map g nr (addIncoming s tid) ModelNode.outgoingEdges
        (fun n => rfl)) sr
  rw [hgn] at hout1
  rw [hout1]

theorem pp_in_nr (g : ModelGraph) (tid s : String) (nr sr : Nat)
    (hnr : g.lookupRef tid = some nr) :
    (((g.modifyNode nr (addIncoming s tid)).modifyNode sr
        (addOutgoing s tid)).getN nr).incomingEdges =
      some (pushEdgeSource ((g.getN nr).incomingEdges.getD []) s tid) := by
  have h2 := map_getN (g.modifyNode nr (addIncoming s tid)) _
    ModelNode.incomingEdges
    (modifyNode_store_map (g.modifyNode nr (addIncoming s tid)) sr
      (addOutgoing s tid) ModelNode.incomingEdges (fun n => rfl)) nr
  rw [h2]
  have hlt : nr < g.store.length := lookupRef_lt g tid nr hnr
  have hm : g.store.get? nr = some (g.store.get ⟨nr, hlt⟩) :=
    List.get?_eq_get hlt
  have hg1 := modifyNode_getN_same g nr (addIncoming s tid) _ hm
  rw [hg1, addIncoming_incoming]
  have hgn : g.getN nr = g.store.get ⟨nr, hlt⟩ := by
    unfold ModelGraph.getN; rw [hm]; rfl
  rw [hgn]

theorem pp_out_char (g : ModelGraph) (tid s : String) (nr sr : Nat)
    (hwf : WfIndex g) (hs : g.lookupRef s = some sr) (a b : String) :
    (hasOutgoing ((g.modifyNode nr (addIncoming s tid)).modifyNode sr
        (addOutgoing s tid)) a b = true) ↔
      (hasOutgoing g a b = true ∨ (a = s ∧ b = tid)) := by
  unfold hasOutgoing
  rw [pp_lookupRef]
  cases hla : g.lookupRef a with
  | none =>
    dsimp only
    constructor
    · intro h; exact absurd h (by decide)
    · rintro (h | ⟨rfl, rfl⟩)
      · exact absurd h (by decide)
      · rw [hs] at hla; cases hla
  | some ra =>
    dsimp only
    by_cases hra : ra = sr
    · rw [hra]
      have has : a = s :=
        (idIndex_of_wf g hwf a sr (hra ▸ hla)).symm.trans
          (idIndex_of_wf g hwf s sr hs)
      rw [pp_out_sr g tid s nr sr hs, Option.getD_some]
      refine (any_pushEdgeTarget _ s tid b).trans ?_
      constructor
      · rintro (h | rfl)
        · exact Or.inl h
        · exact Or.inr ⟨has, rfl⟩
      · rintro (h | ⟨-, rfl⟩)
        · exact Or.inl h
        · exact Or.inr rfl
    · rw [pp_out_ne g tid s nr sr ra hra]
      constructor
      · exact Or.inl
      · rintro (h | ⟨rfl, rfl⟩)
        · exact h
        · rw [hs] at hla; cases hla; exact absurd rfl hra

theorem pp_in_char (g : ModelGraph) (tid s : String) (nr sr : Nat)
    (hwf : WfIndex g) (hnr : g.lookupRef tid = some nr) (a b : String) :
    (hasIncoming ((g.modifyNode nr (addIncoming s tid)).modifyNode sr
        (addOutgoing s tid)) b a = true) ↔
      (hasIncoming g b a = true ∨ (b = tid ∧ a = s)) := by
  unfold hasIncoming
  rw [pp_lookupRef]
  cases hlb : g.lookupRef b with
  | none =>
    dsimp only
    constructor
    · intro h; exact absurd h (by decide)
    · rintro (h | ⟨rfl, rfl⟩)
      · exact absurd h (by decide)
      · rw [hnr] at hlb; cases hlb
  | some rb =>
    dsimp only
    by_cases hrb : rb = nr
    · rw [hrb]
      have hbt : b = tid :=
        (idIndex_of_wf g hwf b nr (hrb ▸ hlb)).symm.trans
          (idIndex_of_wf g hwf tid nr hnr)
      rw [pp_in_nr g tid s nr sr hnr, Option.getD_some]
      refine (any_pushEdgeSource _ s tid a).trans ?_
      constructor
      · rintro (h | rfl)
        · exact Or.inl h
        · exact Or.inr ⟨hbt, rfl⟩
      · rintro (h | ⟨-, rfl⟩)
        · exact Or.inl h
        · exact Or.inr rfl
    · rw [pp_in_ne g tid s nr sr rb hrb]
      constructor
      · exact Or.inl
      · rintro (h | ⟨rfl, rfl⟩)
        · exact h
        · rw [hnr] at hlb; cases hlb; exact absurd rfl hrb

theorem pp_count_le (g : ModelGraph) (tid s : String) (nr sr : Nat)
    (hnr : g.lookupRef tid = some nr) (hs : g.lookupRef s = some sr)
    (a b : String) (ho : outgoingCount g a b ≤ 1)
    (hi : incomingCount g b a ≤ 1) :
    outgoingCount ((g.modifyNode nr (addIncoming s tid)).modifyNode sr
        (addOutgoing s tid)) a b ≤ 1 ∧
      incomingCount ((g.modifyNode nr (addIncoming s tid)).modifyNode sr
        (addOutgoing s tid)) b a ≤ 1 := by
  constructor
  · unfold outgoingCount at ho ⊢
    rw [pp_lookupRef]
    revert ho
    cases hla : g.lookupRef a with
    | none =>
      intro ho
      dsimp only
      exact Nat.zero_le 1
    | some ra =>
      intro ho
      dsimp only at ho ⊢
      by_cases hra : ra = sr
      · rw [hra] at ho ⊢
        rw [pp_out_sr g tid s nr sr hs, Option.getD_some]
        exact count_pushEdgeTarget _ s tid b ho
      · rw [pp_out_ne g tid s nr sr ra hra]
        exact ho
  · unfold incomingCount at hi ⊢
    rw [pp_lookupRef]
    revert hi
    cases hlb : g.lookupRef b with
    | none =>
      intro hi
      dsimp only
      exact Nat.zero_le 1
    | some rb =>
      intro hi
      dsimp only at hi ⊢
      by_cases hrb : rb = nr
      · rw [hrb] at hi ⊢
        rw [pp_in_nr g tid s nr sr hnr, Option.getD_some]
        exact count_pushEdgeSource _ s tid a hi
      · rw [pp_in_ne g tid s nr sr rb hrb]
        exact hi

theorem modifyNode_wfIndex (g : ModelGraph) (r : Nat)
    (f : ModelNode → ModelNode) (hf : ∀ n, (f n).id = n.id)
    (h : WfIndex g) : WfIndex (g.modifyNode r f) := by
  unfold WfIndex at h ⊢
  intro p hp
  rw [modifyNode_nodesById] at hp
  obtain ⟨h1, h2⟩ := h p hp
  refine ⟨by rw [modifyNode_store_length]; exact h1, ?_⟩
  have h3 := map_getN g (g.modifyNode r f) ModelNode.id
    (modifyNode_store_map g r f ModelNode.id hf) p.2
  exact h3.trans h2

theorem processPair_edgeInv (tid : String) (nr : Nat) (g : ModelGraph)
    (s : String) (hnr : g.lookupRef tid = some nr) (h : EdgeInv g) :
    EdgeInv (processPair tid nr g s) := by
  obtain ⟨hwf, hsym, hcnt⟩ := h
  unfold processPair
  cases hs : g.lookupRef s with
  | none => exact ⟨hwf, hsym, hcnt⟩
  | some sr =>
    dsimp only
    have hid1 : ((g.modifyNode nr (addIncoming s tid)).getN nr).id = tid := by
      have hmap := modifyNode_store_map g nr (addIncoming s tid) ModelNode.id
        (fun n => rfl)
      have h4 := map_getN g (g.modifyNode nr (addIncoming s tid))
        ModelNode.id hmap nr
      rw [h4]
      exact idIndex_of_wf g hwf tid nr hnr
    rw [hid1]
    refine ⟨?_, ?_, ?_⟩
    · exact modifyNode_wfIndex _ sr (addOutgoing s tid) (fun n => rfl)
        (modifyNode_wfIndex g nr (addIncoming s tid) (fun n => rfl) hwf)
    · intro a b
      rw [pp_out_char g tid s nr sr hwf hs a b,
        pp_in_char g tid s nr sr hwf hnr a b]
      constructor
      · rintro (h1 | ⟨h1, h2⟩)
        · exact Or.inl ((hsym a b).mp h1)
        · exact Or.inr ⟨h2, h1⟩
      · rintro (h1 | ⟨h1, h2⟩)
        · exact Or.inl ((hsym a b).mpr h1)
        · exact Or.inr ⟨h2, h1⟩
    · intro a b
      exact pp_count_le g tid s nr sr hnr hs a b (hcnt a b).1 (hcnt a b).2

theorem processPair_lookupRef (tid : String) (nr : Nat) (g : ModelGraph)
    (s k : String) : (processPair tid nr g s).lookupRef k = g.lookupRef k := by
  unfold processPair
  cases hs : g.lookupRef s with
  | none => rfl
  | some sr =>
    dsimp only
    rw [modifyNode_lookupRef, modifyNode_lookupRef]

theorem processEdgesForNode_edgeInv (gd : GraphData) (g : ModelGraph)
    (gn : GraphNode) (h : EdgeInv g) :
    EdgeInv (processEdgesForNode gd g gn) := by
  unfold processEdgesForNode
  cases hn : g.lookupRef gn.id with
  | none => exact h
  | some nr =>
    dsimp only
    have h2 := foldlInvariant
      (fun g' : ModelGraph => EdgeInv g' ∧ g'.lookupRef gn.id = some nr)
      (processPair gn.id nr) ((lookupAssoc gd.upstream gn.id).getD []) g
      ?step ⟨h, hn⟩
    · exact h2.1
    case step =>
      intro g' a _ hPL
      obtain ⟨hP, hL⟩ := hPL
      exact ⟨processPair_edgeInv gn.id nr g' a hL hP,
        (processPair_lookupRef gn.id nr g' a gn.id).trans hL⟩

theorem processEdgeRelationships_edgeInv (gd : GraphData) (g : ModelGraph)
    (h : EdgeInv g) : EdgeInv (processEdgeRelationships gd g) :=
  foldlInvariant EdgeInv (processEdgesForNode gd) gd.nodes g
    (fun g' a _ hP => processEdgesForNode_edgeInv gd g' a hP) h

theorem processNodes_edges_none (fl : Bool) (graph : GraphData) :
    ∀ n ∈ (processNodes fl graph createEmptyModelGraph).store,
      n.incomingEdges = none ∧ n.outgoingEdges = none := by
  unfold processNodes
  refine foldlInvariant
    (fun st : ModelGraph × List String =>
      ∀ n ∈ st.1.store, n.incomingEdges = none ∧ n.outgoingEdges = none)
    (processOneNode fl) graph.nodes (createEmptyModelGraph, []) ?_ ?_
  · intro s a _ hP
    unfold processOneNode ModelGraph.addNodeR
    dsimp only
    intro n hn
    split at hn
    · split at hn
      · simp only [List.mem_append, List.mem_singleton] at hn
        rcases hn with hn | rfl
        · exact hP n hn
        · exact ⟨rfl, rfl⟩
      · simp only [List.mem_append, List.mem_singleton] at hn
        rcases hn with (hn | rfl) | rfl
        · exact hP n hn
        · exact ⟨rfl, rfl⟩
        · exact ⟨rfl, rfl⟩
    · simp only [List.mem_append, List.mem_singleton] at hn
      rcases hn with hn | rfl
      · exact hP n hn
      · exact ⟨rfl, rfl⟩
  · intro n hn
    cases hn

theorem hasOut_of_edges_none (g : ModelGraph)
    (hE : ∀ n ∈ g.store, n.incomingEdges = none ∧ n.outgoingEdges = none)
    (a b : String) :
    hasOutgoing g a b = false ∧ hasIncoming g b a = false ∧
      outgoingCount g a b = 0 ∧ incomingCount g b a = 0 := by
  have hcell : ∀ r : Nat, (g.getN r).incomingEdges = none ∧
      (g.getN r).outgoingEdges = none := by
    intro r
    unfold ModelGraph.getN
    cases hg : g.store.get? r with
    | none => exact ⟨rfl, rfl⟩
    | some n => exact hE n (List.get?_mem hg)
  refine ⟨?_, ?_, ?_, ?_⟩
  · unfold hasOutgoing
    cases hla : g.lookupRef a with
    | none => rfl
    | some ra =>
      dsimp only
      rw [(hcell ra).2]
      rfl
  · unfold hasIncoming
    cases hlb : g.lookupRef b with
    | none => rfl
    | some rb =>
      dsimp only
      rw [(hcell rb).1]
      rfl
  · unfold outgoingCount
    cases hla : g.lookupRef a with
    | none => rfl
    | some ra =>
      dsimp only
      rw [(hcell ra).2]
      rfl
  · unfold incomingCount
    cases hlb : g.lookupRef b with
    | none => rfl
    | some rb =>
      dsimp only
      rw [(hcell rb).1]
      rfl

theorem build_edgeInv (fl : Bool) (gd : GraphData) :
    EdgeInv (buildModelGraph fl gd) := by
  unfold buildModelGraph
  refine processEdgeRelationships_edgeInv gd _ ⟨processNodes_wfIndex fl gd, ?_, ?_⟩
  · intro a b
    obtain ⟨h1, h2, -, -⟩ := hasOut_of_edges_none _
      (processNodes_edges_none fl gd) a b
    rw [h1, h2]
  · intro a b
    obtain ⟨-, -, h3, h4⟩ := hasOut_of_edges_none _
      (processNodes_edges_none fl gd) a b
    rw [h3, h4]
    exact ⟨Nat.zero_le 1, Nat.zero_le 1⟩

/-- C2 (confirmed): in the model graph the builder produces, edge records
are symmetric — node `a` lists an outgoing edge to `b` exactly when node `b`
lists an incoming edge from `a` — and de-duplicated: no directed pair is
recorded more than once on either side. -/
theorem c2_edge_symmetry (fl : Bool) (gd : GraphData) (a b : String) :
    hasOutgoing (buildModelGraph fl gd) a b =
        hasIncoming (buildModelGraph fl gd) b a ∧
      outgoingCount (buildModelGraph fl gd) a b ≤ 1 ∧
      incomingCount (buildModelGraph fl gd) b a ≤ 1 := by
  obtain ⟨-, hsym, hcnt⟩ := build_edgeInv fl gd
  refine ⟨?_, hcnt a b⟩
  have hiff := hsym a b
  cases hh : hasOutgoing (buildModelGraph fl gd) a b with
  | true =>
    rw [hh] at hiff
    exact (hiff.mp rfl).symm
  | false =>
    cases hb : hasIncoming (buildModelGraph fl gd) b a with
    | false => rfl
    | true =>
      rw [hh, hb] at hiff
      exact absurd (hiff.mpr rfl) (by decide)

/-! ## C6: request termination and cache integrity -/

theorem wfDescendants_modify (g : ModelGraph) (r : Nat)
    (f : ModelNode → ModelNode)
    (hf : ∀ n, (f n).descendantsNodeIds = n.descendantsNodeIds)
    (h : WfDescendants g) : WfDescendants (g.modifyNode r f) := by
  unfold WfDescendants at h ⊢
  intro n hn i hi
  rw [modifyNode_lookupRef]
  unfold ModelGraph.modifyNode at hn
  cases hg : g.store.get? r with
  | none => rw [hg] at hn; exact h n hn i hi
  | some m =>
    rw [hg] at hn
    dsimp only at hn
    rcases List.mem_or_eq_of_mem_set hn with hn' | rfl
    · exact h n hn' i hi
    · rw [hf m] at hi
      exact h m (List.get?_mem hg) i hi

theorem getN_descendants_resolve (g : ModelGraph) (h : WfDescendants g)
    (r : Nat) : ∀ i ∈ (g.getN r).descendantsNodeIds.getD [],
      (g.lookupRef i).isSome = true := by
  intro i hi
  unfold ModelGraph.getN at hi
  cases hg : g.store.get? r with
  | none =>
    rw [hg] at hi
    simp [defaultModelNode] at hi
  | some n =>
    rw [hg] at hi
    exact h n (List.get?_mem hg) i hi

theorem foldlM_ok (step : ModelGraph → String → Except String ModelGraph)
    (hstep : ∀ g i r, g.lookupRef i = some r → WfDescendants g →
      ∃ g', step g i = .ok g' ∧
        (∀ k, g'.lookupRef k = g.lookupRef k) ∧ WfDescendants g')
    (ids : List String) : ∀ g : ModelGraph,
      (∀ i ∈ ids, (g.lookupRef i).isSome = true) → WfDescendants g →
      ∃ g', List.foldlM step g ids = .ok g' ∧
        (∀ k, g'.lookupRef k = g.lookupRef k) ∧ WfDescendants g' := by
  induction ids with
  | nil =>
    intro g _ hwd
    exact ⟨g, rfl, fun k => rfl, hwd⟩
  | cons i rest ih =>
    intro g hres hwd
    have hi := hres i (List.mem_cons_self _ _)
    cases hli : g.lookupRef i with
    | none => rw [hli] at hi; exact absurd hi (by decide)
    | some r =>
      obtain ⟨g1, hstepOk, hlk1, hwd1⟩ := hstep g i r hli hwd
      obtain ⟨g', hfold, hlk2, hwd2⟩ := ih g1
        (fun j hj => by rw [hlk1 j]; exact hres j (List.mem_cons_of_mem _ hj))
        hwd1
      refine ⟨g', ?_, fun k => (hlk2 k).trans (hlk1 k), hwd2⟩
      rw [List.foldlM_cons, hstepOk]
      exact hfold

theorem clearSizeStep_spec : ∀ (g : ModelGraph) (i : String) (r : Nat),
    g.lookupRef i = some r → WfDescendants g →
    ∃ g', clearSizeStep g i = .ok g' ∧
      (∀ k, g'.lookupRef k = g.lookupRef k) ∧ WfDescendants g' := by
  intro g i r h hwd
  refine ⟨g.modifyNode r (fun n => { n with width := none, height := none }),
    ?_, ?_, ?_⟩
  · unfold clearSizeStep; rw [h]
  · intro k
    exact modifyNode_lookupRef g r
      (fun n => { n with width := none, height := none }) k
  · exact wfDescendants_modify g r
      (fun n => { n with width := none, height := none }) (fun n => rfl) hwd

theorem expandDescStep_spec : ∀ (g : ModelGraph) (i : String) (r : Nat),
    g.lookupRef i = some r → WfDescendants g →
    ∃ g', expandDescStep g i = .ok g' ∧
      (∀ k, g'.lookupRef k = g.lookupRef k) ∧ WfDescendants g' := by
  intro g i r h hwd
  refine ⟨if (g.getN r).nodeType = .groupNode then
      g.modifyNode r (fun n => { n with expanded := true }) else g,
    ?_, ?_, ?_⟩
  · unfold expandDescStep; rw [h]
  · intro k
    by_cases hgr : (g.getN r).nodeType = .groupNode
    · rw [if_pos hgr]
      exact modifyNode_lookupRef g r (fun n => { n with expanded := true }) k
    · rw [if_neg hgr]
  · by_cases hgr : (g.getN r).nodeType = .groupNode
    · rw [if_pos hgr]
      exact wfDescendants_modify g r (fun n => { n with expanded := true })
        (fun n => rfl) hwd
    · rw [if_neg hgr]; exact hwd

theorem collapseDescStep_spec : ∀ (g : ModelGraph) (i : String) (r : Nat),
    g.lookupRef i = some r → WfDescendants g →
    ∃ g', collapseDescStep g i = .ok g' ∧
      (∀ k, g'.lookupRef k = g.lookupRef k) ∧ WfDescendants g' := by
  intro g i r h hwd
  by_cases hgr : (g.getN r).nodeType = .groupNode
  · refine ⟨collapseOne g r, ?_, ?_, ?_⟩
    · unfold collapseDescStep
      rw [h]
      dsimp only
      rw [if_pos hgr]
    · intro k
      exact modifyNode_lookupRef g r
        (fun n => { n with expanded := false, width := none, height := none }) k
    · exact wfDescendants_modify g r
        (fun n => { n with expanded := false, width := none, height := none })
        (fun n => rfl) hwd
  · refine ⟨g, ?_, fun k => rfl, hwd⟩
    unfold collapseDescStep
    rw [h]
    dsimp only
    rw [if_neg hgr]

theorem clearSizes_ok (g : ModelGraph) (ids : List String)
    (hres : ∀ i ∈ ids, (g.lookupRef i).isSome = true)
    (hwd : WfDescendants g) :
    ∃ g', clearSizes g ids = .ok g' ∧
      (∀ k, g'.lookupRef k = g.lookupRef k) ∧ WfDescendants g' :=
  foldlM_ok clearSizeStep clearSizeStep_spec ids g hres hwd

theorem expandDescendantGroups_ok (g : ModelGraph) (ids : List String)
    (hres : ∀ i ∈ ids, (g.lookupRef i).isSome = true)
    (hwd : WfDescendants g) :
    ∃ g', expandDescendantGroups g ids = .ok g' ∧
      (∀ k, g'.lookupRef k = g.lookupRef k) ∧ WfDescendants g' :=
  foldlM_ok expandDescStep expandDescStep_spec ids g hres hwd

theorem collapseDescendants_ok (g : ModelGraph) (ids : List String)
    (hres : ∀ i ∈ ids, (g.lookupRef i).isSome = true)
    (hwd : WfDescendants g) :
    ∃ g', collapseDescendants g ids = .ok g' ∧
      (∀ k, g'.lookupRef k = g.lookupRef k) ∧ WfDescendants g' :=
  foldlM_ok collapseDescStep collapseDescStep_spec ids g hres hwd

theorem expandChain_wfDescendants : ∀ (fuel : Nat) (g : ModelGraph)
    (cur : Nat), WfDescendants g →
    WfDescendants (expandChain fuel g cur).1 := by
  intro fuel
  induction fuel with
  | zero => intro g cur h; exact h
  | succ n ih =>
    intro g cur h
    unfold expandChain
    cases hc : (g.getN cur).childrenIds.getD [] with
    | nil => exact h
    | cons cid rest =>
      cases rest with
      | nil =>
        dsimp only
        cases hl : g.lookupRef cid with
        | none => exact h
        | some cr =>
          dsimp only
          by_cases hg : (g.getN cr).nodeType = .groupNode
          · rw [if_pos hg]
            exact ih _ _ (wfDescendants_modify g cr
              (fun n => { n with expanded := true }) (fun n => rfl) h)
          · rw [if_neg hg]
            exact h
      | cons c2 r2 => exact h

theorem expandGroupPath_ok (fuel : Nat) (g : ModelGraph) (r : Nat)
    (hwd : WfDescendants g) :
    ∃ gd, expandGroupPath fuel g r = .ok gd ∧ WfDescendants gd.1 := by
  unfold expandGroupPath
  dsimp only
  have hwd1 : WfDescendants ((expandChain fuel
      (g.modifyNode r (fun n => { n with expanded := true })) r).1) :=
    expandChain_wfDescendants fuel _ r (wfDescendants_modify g r
      (fun n => { n with expanded := true }) (fun n => rfl) hwd)
  obtain ⟨g2, heq, -, hwd2⟩ := clearSizes_ok
    (expandChain fuel
      (g.modifyNode r (fun n => { n with expanded := true })) r).1
    (((expandChain fuel
        (g.modifyNode r (fun n => { n with expanded := true })) r).1.getN
      (expandChain fuel
        (g.modifyNode r (fun n => { n with expanded := true })) r).2
        ).descendantsNodeIds.getD [])
    (getN_descendants_resolve _ hwd1 _) hwd1
  rw [heq]
  exact ⟨_, rfl, hwd2⟩

theorem except_bind_ok {α β : Type} (a : α) (f : α → Except String β) :
    (Except.ok a >>= f : Except String β) = f a := rfl

theorem except_pure_bind {α β : Type} (a : α) (f : α → Except String β) :
    (pure a >>= f : Except String β) = f a := rfl

theorem handleExpandGroupNode_ok_iff (fuel : Nat) (g : ModelGraph)
    (gid : Option String) (all : Bool) (hwd : WfDescendants g) :
    exceptIsOk (handleExpandGroupNode fuel g gid all) = false ↔
      (all = true ∧ ∃ s, gid = some s ∧ g.lookupRef s = none) := by
  cases gid with
  | none =>
    constructor
    · exact fun h => Bool.noConfusion h
    · rintro ⟨-, s', hs', -⟩; cases hs'
  | some s =>
    unfold handleExpandGroupNode
    dsimp only
    cases hls : g.lookupRef s with
    | none =>
      dsimp only
      cases all with
      | true =>
        constructor
        · intro _; exact ⟨rfl, s, rfl, hls⟩
        · intro _; rfl
      | false =>
        constructor
        · exact fun h => Bool.noConfusion h
        · rintro ⟨hall, -⟩; exact Bool.noConfusion hall
    | some r =>
      dsimp only
      by_cases hgr : (g.getN r).nodeType = .groupNode
      · rw [if_pos hgr]
        obtain ⟨gd, heq, hwds⟩ := expandGroupPath_ok fuel g r hwd
        rw [heq]
        cases all with
        | false =>
          constructor
          · exact fun h => Bool.noConfusion h
          · rintro ⟨hall, -⟩; exact Bool.noConfusion hall
        | true =>
          rw [except_bind_ok, if_pos rfl]
          obtain ⟨g2, heq2, -, -⟩ := expandDescendantGroups_ok gd.1
            ((gd.1.getN r).descendantsNodeIds.getD [])
            (getN_descendants_resolve gd.1 hwds r) hwds
          rw [heq2]
          constructor
          · exact fun h => Bool.noConfusion h
          · rintro ⟨-, s', hs', hnone⟩
            cases hs'
            rw [hls] at hnone
            cases hnone
      · rw [if_neg hgr]
        cases all with
        | false =>
          constructor
          · exact fun h => Bool.noConfusion h
          · rintro ⟨hall, -⟩; exact Bool.noConfusion hall
        | true =>
          rw [except_pure_bind, if_pos rfl]
          dsimp only
          obtain ⟨g2, heq2, -, -⟩ := expandDescendantGroups_ok g
            ((g.getN r).descendantsNodeIds.getD [])
            (getN_descendants_resolve g hwd r) hwd
          rw [heq2]
          constructor
          · exact fun h => Bool.noConfusion h
          · rintro ⟨-, s', hs', hnone⟩
            cases hs'
            rw [hls] at hnone
            cases hnone

theorem handleCollapseGroupNode_ok_iff (g : ModelGraph) (gid : Option String)
    (all : Bool) (hwd : WfDescendants g) :
    exceptIsOk (handleCollapseGroupNode g gid all) = false ↔
      (all = true ∧ ∃ s, gid = some s ∧ g.lookupRef s = none) := by
  cases gid with
  | none =>
    constructor
    · exact fun h => Bool.noConfusion h
    · rintro ⟨-, s', hs', -⟩; cases hs'
  | some s =>
    unfold handleCollapseGroupNode
    dsimp only
    cases all with
    | false =>
      constructor
      · exact fun h => Bool.noConfusion h
      · rintro ⟨hall, -⟩; exact Bool.noConfusion hall
    | true =>
      cases hls : g.lookupRef s with
      | none =>
        constructor
        · intro _; exact ⟨rfl, s, rfl, hls⟩
        · intro _; rfl
      | some r =>
        dsimp only
        obtain ⟨g2, heq, -, -⟩ := collapseDescendants_ok g
          ((g.getN r).descendantsNodeIds.getD [])
          (getN_descendants_resolve g hwd r) hwd
        rw [heq]
        constructor
        · exact fun h => Bool.noConfusion h
        · rintro ⟨-, s', hs', hnone⟩
          cases hs'
          rw [hls] at hnone
          cases hnone

/-- C6 (amended): relayout requests fail exactly on a cache miss, and any
failing expand/collapse request leaves the cache untouched; a cache miss
always fails the request.  But a cache miss is not the only early
termination: on a cache hit (of any graph with resolvable descendant ids, as
the processor maintains), an expand/collapse request throws — with no
normal response — exactly when `all` is set and the given group node id is
not in the graph's index, the `TypeError` of GraphPreprocessor.ts:559/587. -/
theorem c6_error_dichotomy (c : ModelGraphCache) (mid rid : String)
    (expand : Bool) (gid : Option String) (all : Bool) (fuel : Nat)
    (sel : String) (targets : Option (List String)) (clr : Bool) :
    (exceptIsOk (routeRelayout c mid rid sel targets clr).1 = false ↔
        lookupAssoc c (getModelGraphKey mid rid) = none) ∧
      (exceptIsOk (routeRelayout c mid rid sel targets clr).1 = false →
        (routeRelayout c mid rid sel targets clr).2 = c) ∧
      (exceptIsOk (routeExpandOrCollapse c mid rid expand gid all fuel).1 =
          false →
        (routeExpandOrCollapse c mid rid expand gid all fuel).2 = c) ∧
      (lookupAssoc c (getModelGraphKey mid rid) = none →
        exceptIsOk (routeExpandOrCollapse c mid rid expand gid all fuel).1 =
          false) ∧
      (∀ g, lookupAssoc c (getModelGraphKey mid rid) = some g →
        WfDescendants g →
        (exceptIsOk (routeExpandOrCollapse c mid rid expand gid all fuel).1 =
            false ↔
          (all = true ∧ ∃ s, gid = some s ∧ g.lookupRef s = none))) := by
  refine ⟨?_, ?_, ?_, ?_, ?_⟩
  · unfold routeRelayout getCachedModelGraph
    cases hl : lookupAssoc c (getModelGraphKey mid rid) with
    | none => exact ⟨fun _ => rfl, fun _ => rfl⟩
    | some g0 =>
      dsimp only
      constructor
      · exact fun h => Bool.noConfusion h
      · intro h; cases h
  · unfold routeRelayout getCachedModelGraph
    cases hl : lookupAssoc c (getModelGraphKey mid rid) with
    | none => intro _; rfl
    | some g0 =>
      dsimp only
      intro h
      exact Bool.noConfusion h
  · unfold routeExpandOrCollapse getCachedModelGraph
    cases hl : lookupAssoc c (getModelGraphKey mid rid) with
    | none => intro _; rfl
    | some g0 =>
      dsimp only
      cases hres : (if expand then handleExpandGroupNode fuel g0 gid all
          else handleCollapseGroupNode g0 gid all) with
      | error e => intro _; rfl
      | ok gi => intro h; exact Bool.noConfusion h
  · unfold routeExpandOrCollapse getCachedModelGraph
    cases hl : lookupAssoc c (getModelGraphKey mid rid) with
    | none => intro _; rfl
    | some g0 =>
      intro hmiss
      cases hmiss
  · unfold routeExpandOrCollapse getCachedModelGraph
    cases hl : lookupAssoc c (getModelGraphKey mid rid) with
    | none =>
      intro g hg
      cases hg
    | some g0 =>
      intro g hg hwd
      cases hg
      dsimp only
      cases expand with
      | true =>
        rw [if_pos rfl]
        have hiff := handleExpandGroupNode_ok_iff fuel g0 gid all hwd
        cases hres : handleExpandGroupNode fuel g0 gid all with
        | error e =>
          rw [hres] at hiff
          exact hiff
        | ok gi =>
          rw [hres] at hiff
          exact hiff
      | false =>
        rw [if_neg (by decide)]
        have hiff := handleCollapseGroupNode_ok_iff g0 gid all hwd
        cases hres : handleCollapseGroupNode g0 gid all with
        | error e =>
          rw [hres] at hiff
          exact hiff
        | ok gi =>
          rw [hres] at hiff
          exact hiff

/-- On a populated session cache a hit that then requests `all`-expansion of
an unknown group id terminates with an error — not a cache miss — and the
cache is left unchanged: the dichotomy claimed by the spec fails. -/
theorem c6_counterexample :
    (lookupAssoc exampleCache (getModelGraphKey "<ROOT>" "r1")).isSome =
        true ∧
      exceptIsOk (routeExpandOrCollapse exampleCache "<ROOT>" "r1" true
        (some "missing") true 10).1 = false ∧
      (routeExpandOrCollapse exampleCache "<ROOT>" "r1" true
        (some "missing") true 10).2 = exampleCache := by
  decide

/-- Witness for C6 at the example cache: the hit graph is the empty model
graph, whose descendant ids trivially resolve, and the request fails
because `all` is set while `"missing"` is not in its index. -/
theorem c6_error_dichotomy_witness :
    WfDescendants createEmptyModelGraph ∧
      (exceptIsOk (routeExpandOrCollapse exampleCache "<ROOT>" "r1" true
          (some "missing") true 10).1 = false ↔
        (true = true ∧ ∃ s, (some "missing" : Option String) = some s ∧
          createEmptyModelGraph.lookupRef s = none)) :=
  ⟨by decide,
    (c6_error_dichotomy exampleCache "<ROOT>" "r1" true (some "missing") true
        10 "sel" none false).2.2.2.2 createEmptyModelGraph (by decide)
      (by decide)⟩

/-! ## C4: the layout BFS and what generateLayoutGraphConnections records -/

theorem length_filter_mono {α : Type _} (l : List α) (p q : α → Bool)
    (h : ∀ x, p x = true → q x = true) :
    (l.filter p).length ≤ (l.filter q).length := by
  induction l with
  | nil => exact Nat.le_refl 0
  | cons x xs ih =>
    by_cases hp : p x = true
    · rw [List.filter_cons_of_pos hp, List.filter_cons_of_pos (h x hp)]
      exact Nat.succ_le_succ ih
    · rw [List.filter_cons_of_neg hp]
      by_cases hq : q x = true
      · rw [List.filter_cons_of_pos hq]
        exact Nat.le_succ_of_le ih
      · rw [List.filter_cons_of_neg hq]
        exact ih

theorem filter_notin_cons_lt (l s : List String) (a : String)
    (ha : a ∈ l) (hna : a ∉ s) :
    (l.filter (fun x => x ∉ a :: s)).length <
      (l.filter (fun x => x ∉ s)).length := by
  induction l with
  | nil => cases ha
  | cons x xs ih =>
    by_cases hx : x = a
    · subst hx
      rw [List.filter_cons_of_neg (by simp), List.filter_cons_of_pos (by
        simpa using hna)]
      exact Nat.lt_succ_of_le
        (length_filter_mono xs _ _ (fun z hz => by
          simp only [decide_eq_true_eq] at hz ⊢
          exact fun hzs => hz (List.mem_cons_of_mem _ hzs)))
    · have ha' : a ∈ xs := by
        rcases List.mem_cons.mp ha with h | h
        · exact absurd h.symm hx
        · exact h
      by_cases hxs : x ∈ s
      · rw [List.filter_cons_of_neg (by simp [hxs]),
          List.filter_cons_of_neg (by simp [hxs])]
        exact ih ha'
      · rw [List.filter_cons_of_pos (by simp [hxs, hx]),
          List.filter_cons_of_pos (by simp [hxs])]
        exact Nat.succ_lt_succ (ih ha')

theorem bfsDequeue_none_spec (g : ModelGraph) :
    ∀ (q : List (Option Nat)) (seen : List String),
    bfsDequeue g q seen = none →
    ∀ r, some r ∈ q → ∀ n, g.store.get? r = some n →
      n.hideInLayout = true ∨ n.id ∈ seen := by
  intro q
  induction q with
  | nil =>
    intro seen _ r hr
    cases hr
  | cons o rest ih =>
    intro seen hdq r hr n hn
    unfold bfsDequeue at hdq
    rcases List.mem_cons.mp hr with ho | hr'
    · cases o with
      | none => cases ho
      | some r0 =>
        cases ho
        dsimp only at hdq
        rw [hn] at hdq
        dsimp only at hdq
        by_cases hh : n.hideInLayout = true
        · exact Or.inl hh
        · rw [if_neg hh] at hdq
          by_cases hs : n.id ∈ seen
          · exact Or.inr hs
          · rw [if_neg hs] at hdq
            cases hdq
    · cases o with
      | none => exact ih seen hdq r hr' n hn
      | some r0 =>
        dsimp only at hdq
        cases hg0 : g.store.get? r0 with
        | none =>
          rw [hg0] at hdq
          dsimp only at hdq
          exact ih seen hdq r hr' n hn
        | some n0 =>
          rw [hg0] at hdq
          dsimp only at hdq
          by_cases hh0 : n0.hideInLayout = true
          · rw [if_pos hh0] at hdq
            exact ih seen hdq r hr' n hn
          · rw [if_neg hh0] at hdq
            by_cases hs0 : n0.id ∈ seen
            · rw [if_pos hs0] at hdq
              exact ih seen hdq r hr' n hn
            · rw [if_neg hs0] at hdq
              cases hdq

theorem bfsDequeue_some_spec (g : ModelGraph) :
    ∀ (q : List (Option Nat)) (seen : List String) (r : Nat)
      (rest : List (Option Nat)),
    bfsDequeue g q seen = some (r, rest) →
    (some r ∈ q ∧ ∃ n, g.store.get? r = some n ∧
        n.hideInLayout = false ∧ n.id ∉ seen) ∧
      (∀ o ∈ rest, o ∈ q) ∧
      (∀ r', some r' ∈ q → some r' ∈ rest ∨ r' = r ∨
        (∀ n, g.store.get? r' = some n →
          n.hideInLayout = true ∨ n.id ∈ seen)) := by
  intro q
  induction q with
  | nil =>
    intro seen r rest hdq
    cases hdq
  | cons o tail ih =>
    intro seen r rest hdq
    unfold bfsDequeue at hdq
    cases o with
    | none =>
      obtain ⟨⟨hmem, hn⟩, hsub, hdrop⟩ := ih seen r rest hdq
      refine ⟨⟨List.mem_cons_of_mem _ hmem, hn⟩,
        fun o ho => List.mem_cons_of_mem _ (hsub o ho), ?_⟩
      intro r' hr'
      rcases List.mem_cons.mp hr' with h | h
      · cases h
      · exact hdrop r' h
    | some r0 =>
      dsimp only at hdq
      cases hg0 : g.store.get? r0 with
      | none =>
        rw [hg0] at hdq
        dsimp only at hdq
        obtain ⟨⟨hmem, hn⟩, hsub, hdrop⟩ := ih seen r rest hdq
        refine ⟨⟨List.mem_cons_of_mem _ hmem, hn⟩,
          fun o ho => List.mem_cons_of_mem _ (hsub o ho), ?_⟩
        intro r' hr'
        rcases List.mem_cons.mp hr' with h | h
        · cases h
          refine Or.inr (Or.inr (fun n hn2 => ?_))
          rw [hg0] at hn2
          cases hn2
        · exact hdrop r' h
      | some n0 =>
        rw [hg0] at hdq
        dsimp only at hdq
        by_cases hh0 : n0.hideInLayout = true
        · rw [if_pos hh0] at hdq
          obtain ⟨⟨hmem, hn⟩, hsub, hdrop⟩ := ih seen r rest hdq
          refine ⟨⟨List.mem_cons_of_mem _ hmem, hn⟩,
            fun o ho => List.mem_cons_of_mem _ (hsub o ho), ?_⟩
          intro r' hr'
          rcases List.mem_cons.mp hr' with h | h
          · cases h
            refine Or.inr (Or.inr (fun n hn2 => ?_))
            rw [hg0] at hn2
            cases hn2
            exact Or.inl hh0
          · exact hdrop r' h
        · rw [if_neg hh0] at hdq
          by_cases hs0 : n0.id ∈ seen
          · rw [if_pos hs0] at hdq
            obtain ⟨⟨hmem, hn⟩, hsub, hdrop⟩ := ih seen r rest hdq
            refine ⟨⟨List.mem_cons_of_mem _ hmem, hn⟩,
              fun o ho => List.mem_cons_of_mem _ (hsub o ho), ?_⟩
            intro r' hr'
            rcases List.mem_cons.mp hr' with h | h
            · cases h
              refine Or.inr (Or.inr (fun n hn2 => ?_))
              rw [hg0] at hn2
              cases hn2
              exact Or.inr hs0
            · exact hdrop r' h
          · rw [if_neg hs0] at hdq
            cases hdq
            refine ⟨⟨List.mem_cons_self _ _,
              n0, hg0, Bool.eq_false_iff.mpr hh0, hs0⟩,
              fun o ho => List.mem_cons_of_mem _ ho, ?_⟩
            intro r' hr'
            rcases List.mem_cons.mp hr' with h | h
            · cases h
              exact Or.inr (Or.inl rfl)
            · exact Or.inl h

theorem bfsRun_spec (g : ModelGraph) (hwf : WfIndex g) :
    ∀ (fuel : Nat) (queue : List (Option Nat)) (seen : List String),
    BfsInv g queue seen →
    ((idUniverse g).filter (fun x => x ∉ seen)).length < fuel →
    (bfsRun g fuel queue seen).Nodup ∧
      (∀ x ∈ bfsRun g fuel queue seen, ReachV g x) ∧
      (∀ x ∈ bfsRun g fuel queue seen, ∀ y, succVisible g x y →
        y ∈ bfsRun g fuel queue seen) ∧
      (∀ x ∈ seen, x ∈ bfsRun g fuel queue seen) ∧
      (∀ r, some r ∈ queue → (g.getN r).hideInLayout = false →
        (g.getN r).id ∈ bfsRun g fuel queue seen) := by
  intro fuel
  induction fuel with
  | zero =>
    intro queue seen _ hfuel
    exact absurd hfuel (Nat.not_lt_zero _)
  | succ m ih =>
    intro queue seen hinv hfuel
    obtain ⟨hQR, hSS, hQS, hCL, hND⟩ := hinv
    cases hdq : bfsDequeue g queue seen with
    | none =>
      have hrun : bfsRun g (m + 1) queue seen = seen := by
        unfold bfsRun
        rw [hdq]
      rw [hrun]
      refine ⟨hND, hSS, ?_, fun x hx => hx, ?_⟩
      · intro x hx y hy
        rcases hCL x hx y hy with h | ⟨ry, hry, hmem⟩
        · exact h
        · obtain ⟨-, ry2, hry2, hhid2⟩ := hy
          rw [hry] at hry2
          cases hry2
          have hval : ry < g.store.length := lookupRef_lt g y ry hry
          have hget0 : g.store.get? ry = some (g.store.get ⟨ry, hval⟩) :=
            List.get?_eq_get hval
          have hgetN : g.getN ry = g.store.get ⟨ry, hval⟩ := by
            unfold ModelGraph.getN
            rw [hget0]
            rfl
          rcases bfsDequeue_none_spec g queue seen hdq ry hmem _ hget0
            with hh | hs
          · rw [← hgetN] at hh
            rw [hhid2] at hh
            cases hh
          · rw [← hgetN] at hs
            rw [idIndex_of_wf g hwf y ry hry] at hs
            exact hs
      · intro r hr hhide
        cases hgr : g.store.get? r with
        | none =>
          exfalso
          have : g.getN r = defaultModelNode := by
            unfold ModelGraph.getN
            rw [hgr]
            rfl
          rw [this] at hhide
          cases hhide
        | some n =>
          have hgetN : g.getN r = n := by
            unfold ModelGraph.getN
            rw [hgr]
            rfl
          rcases bfsDequeue_none_spec g queue seen hdq r hr n hgr with hh | hs
          · rw [← hgetN, hhide] at hh
            cases hh
          · rw [← hgetN] at hs
            exact hs
    | some pr =>
      obtain ⟨r, rest⟩ := pr
      have hrun : bfsRun g (m + 1) queue seen =
          bfsRun g m
            (rest ++ ((g.getN r).outgoingEdges.getD []).map
              (fun e => g.lookupRef e.targetNodeId))
            ((g.getN r).id :: seen) := by
        conv_lhs => rw [bfsRun]
        rw [hdq]
      rw [hrun]
      obtain ⟨⟨hrq, n0, hget0, hnh, hns⟩, hsub, hdrop⟩ :=
        bfsDequeue_some_spec g queue seen r rest hdq
      have hgetN : g.getN r = n0 := by
        unfold ModelGraph.getN
        rw [hget0]
        rfl
      rw [← hgetN] at hnh hns
      have hlkr : g.lookupRef ((g.getN r).id) = some r := hQR r hrq
      have hreach : ReachV g ((g.getN r).id) := hQS r hrq hnh
      have hidmem : (g.getN r).id ∈ idUniverse g := by
        unfold idUniverse
        exact List.mem_map.mpr ⟨n0, List.get?_mem hget0, by rw [hgetN]⟩
      have hinv2 : BfsInv g
          (rest ++ ((g.getN r).outgoingEdges.getD []).map
            (fun e => g.lookupRef e.targetNodeId))
          ((g.getN r).id :: seen) := by
        refine ⟨?_, ?_, ?_, ?_, ?_⟩
        · -- queue registration for the next state
          intro r2 h2
          rcases List.mem_append.mp h2 with h3 | h3
          · exact hQR r2 (hsub _ h3)
          · obtain ⟨e, he, heq⟩ := List.mem_map.mp h3
            have hid2 : (g.getN r2).id = e.targetNodeId :=
              idIndex_of_wf g hwf e.targetNodeId r2 heq
            rw [hid2]
            exact heq
        · -- seen soundness for the next state
          intro x hx
          rcases List.mem_cons.mp hx with h3 | h3
          · rw [h3]
            exact hreach
          · exact hSS x h3
        · -- queue soundness for the next state
          intro r2 h2 hh2
          rcases List.mem_append.mp h2 with h3 | h3
          · exact hQS r2 (hsub _ h3) hh2
          · obtain ⟨e, he, heq⟩ := List.mem_map.mp h3
            have hid2 : (g.getN r2).id = e.targetNodeId :=
              idIndex_of_wf g hwf e.targetNodeId r2 heq
            rw [hid2]
            refine ReachV.step ((g.getN r).id) e.targetNodeId hreach ?_
            refine ⟨⟨r, hlkr, ?_⟩, ⟨r2, heq, ?_⟩⟩
            · exact List.mem_map.mpr ⟨e, he, rfl⟩
            · exact hh2
        · -- closure for the next state
          intro x hx y hy
          rcases List.mem_cons.mp hx with h3 | h3
          · obtain ⟨⟨rx, hrx, hytgt⟩, ry, hry, hyh⟩ := hy
            rw [h3, hlkr] at hrx
            cases hrx
            obtain ⟨e, he, hety⟩ := List.mem_map.mp hytgt
            refine Or.inr ⟨ry, hry, List.mem_append.mpr (Or.inr ?_)⟩
            refine List.mem_map.mpr ⟨e, he, ?_⟩
            rw [hety, hry]
          · rcases hCL x h3 y hy with h4 | ⟨ry, hry, hqmem⟩
            · exact Or.inl (List.mem_cons_of_mem _ h4)
            · obtain ⟨-, ry2, hry2, hyh⟩ := hy
              rw [hry] at hry2
              cases hry2
              rcases hdrop ry hqmem with hm | hm | hm
              · exact Or.inr ⟨ry, hry, List.mem_append.mpr (Or.inl hm)⟩
              · subst hm
                refine Or.inl ?_
                have h5 : y = (g.getN ry).id :=
                  (idIndex_of_wf g hwf y ry hry).symm
                rw [h5]
                exact List.mem_cons_self _ _
              · have hval : ry < g.store.length := lookupRef_lt g y ry hry
                have hget2 : g.store.get? ry =
                    some (g.store.get ⟨ry, hval⟩) := List.get?_eq_get hval
                have hgetN2 : g.getN ry = g.store.get ⟨ry, hval⟩ := by
                  unfold ModelGraph.getN
                  rw [hget2]
                  rfl
                rcases hm _ hget2 with hh4 | hs4
                · exfalso
                  rw [← hgetN2, hyh] at hh4
                  cases hh4
                · rw [← hgetN2, idIndex_of_wf g hwf y ry hry] at hs4
                  exact Or.inl (List.mem_cons_of_mem _ hs4)
        · -- no duplicates in the next seen set
          exact List.nodup_cons.mpr ⟨hns, hND⟩
      have hfuel2 : ((idUniverse g).filter
          (fun x => x ∉ (g.getN r).id :: seen)).length < m := by
        have hlt := filter_notin_cons_lt (idUniverse g) seen ((g.getN r).id)
          hidmem hns
        exact Nat.lt_of_lt_of_le hlt (Nat.lt_succ_iff.mp hfuel)
      obtain ⟨hnd2, hre2, hcl2, hseen2, hq2⟩ := ih _ _ hinv2 hfuel2
      refine ⟨hnd2, hre2, hcl2, ?_, ?_⟩
      · intro x hx
        exact hseen2 x (List.mem_cons_of_mem _ hx)
      · intro r' hr' hh'
        rcases hdrop r' hr' with hm | hm | hm
        · exact hq2 r' (List.mem_append.mpr (Or.inl hm)) hh'
        · subst hm
          exact hseen2 _ (List.mem_cons_self _ _)
        · cases hgr' : g.store.get? r' with
          | none =>
            exfalso
            have hdflt : g.getN r' = defaultModelNode := by
              unfold ModelGraph.getN
              rw [hgr']
              rfl
            rw [hdflt] at hh'
            cases hh'
          | some n' =>
            have hgetN' : g.getN r' = n' := by
              unfold ModelGraph.getN
              rw [hgr']
              rfl
            rcases hm n' hgr' with hh2 | hs2
            · exfalso
              rw [← hgetN', hh'] at hh2
              cases hh2
            · rw [← hgetN'] at hs2
              exact hseen2 _ (List.mem_cons_of_mem _ hs2)

theorem bfsVisits_spec (g : ModelGraph) (hwf : WfIndex g)
    (hreg : NodesRegistered g) :
    (bfsVisits g).Nodup ∧ ∀ y, (y ∈ bfsVisits g ↔ ReachV g y) := by
  have hinv0 : BfsInv g ((layoutRootRefs g).map some) [] := by
    refine ⟨?_, ?_, ?_, ?_, ?_⟩
    · intro r2 h2
      obtain ⟨r3, hr3, heq⟩ := List.mem_map.mp h2
      cases heq
      exact hreg _ (List.mem_of_mem_filter hr3)
    · intro x hx
      cases hx
    · intro r2 h2 _
      obtain ⟨r3, hr3, heq⟩ := List.mem_map.mp h2
      cases heq
      exact ReachV.root _ hr3
    · intro x hx
      cases hx
    · exact List.nodup_nil
  have hfuel0 : ((idUniverse g).filter
      (fun x => x ∉ ([] : List String))).length <
      (idUniverse g).length + 1 :=
    Nat.lt_succ_of_le (List.length_filter_le _ _)
  obtain ⟨hnd, hre, hcl, -, hq⟩ := bfsRun_spec g hwf
    ((idUniverse g).length + 1) ((layoutRootRefs g).map some) [] hinv0 hfuel0
  unfold bfsVisits
  refine ⟨hnd, fun y => ⟨fun hy => hre y hy, fun hy => ?_⟩⟩
  induction hy with
  | root r hr =>
    refine hq r (List.mem_map_of_mem some hr) ?_
    have hp := (List.mem_filter.mp hr).2
    dsimp only at hp
    rw [Bool.and_eq_true, Bool.and_eq_true] at hp
    simpa using hp.1.2
  | step x y hx hs ihx => exact hcl x ihx y hs

theorem layoutRootRefs_mem (g : ModelGraph) (r : Nat) :
    r ∈ layoutRootRefs g ↔
      (r ∈ g.nodes ∧ (g.getN r).nodeType = .assetNode ∧
        (g.getN r).hideInLayout = false ∧
        ∀ e ∈ (g.getN r).incomingEdges.getD [],
          g.hideOf e.sourceNodeId = true) := by
  unfold layoutRootRefs
  rw [List.mem_filter]
  constructor
  · rintro ⟨hmem, hp⟩
    dsimp only at hp
    rw [Bool.and_eq_true, Bool.and_eq_true] at hp
    obtain ⟨⟨ht, hh⟩, hemp⟩ := hp
    refine ⟨hmem, of_decide_eq_true ht, by simpa using hh, ?_⟩
    intro e he
    have hnil := List.isEmpty_iff.mp hemp
    have := List.filter_eq_nil.mp hnil e he
    simpa using this
  · rintro ⟨hmem, ht, hh, hall⟩
    refine ⟨hmem, ?_⟩
    dsimp only
    rw [Bool.and_eq_true, Bool.and_eq_true]
    refine ⟨⟨decide_eq_true ht, by simp [hh]⟩, ?_⟩
    rw [List.isEmpty_iff]
    rw [List.filter_eq_nil]
    intro e he
    simp [hall e he]

/-- C4 (corrected): `generateLayoutGraphConnections` resets
`layoutGraphEdges` to empty and records nothing in it — the claimed
recording of forward connectivity for the layout collaborator does not
happen — while the traversal it runs (and then discards, the seen set being
a local variable) behaves as claimed: on a well-indexed graph with
registered nodes the traversal roots are exactly the non-hidden asset nodes
all of whose incoming edges come from hidden sources, and the BFS marks as
seen exactly the ids reachable from those roots through visible successors,
each at most once. -/
theorem c4_layout_connections (g : ModelGraph) (hwf : WfIndex g)
    (hreg : NodesRegistered g) :
    generateLayoutGraphConnections g = { g with layoutGraphEdges := [] } ∧
      (∀ r, r ∈ layoutRootRefs g ↔
        (r ∈ g.nodes ∧ (g.getN r).nodeType = .assetNode ∧
          (g.getN r).hideInLayout = false ∧
          ∀ e ∈ (g.getN r).incomingEdges.getD [],
            g.hideOf e.sourceNodeId = true)) ∧
      (bfsVisits g).Nodup ∧
      (∀ y, y ∈ bfsVisits g ↔ ReachV g y) := by
  obtain ⟨hnd, hiff⟩ := bfsVisits_spec g hwf hreg
  exact ⟨rfl, fun r => layoutRootRefs_mem g r, hnd, hiff⟩

/-- The recorded output the claim promises is missing: on the built
two-asset chain the edge `a → b` exists and both endpoints are visited by
the traversal, yet `generateLayoutGraphConnections` leaves
`layoutGraphEdges` empty. -/
theorem c4_counterexample :
    (generateLayoutGraphConnections
        (buildModelGraph false gdTwoChain)).layoutGraphEdges = [] ∧
      hasOutgoing (buildModelGraph false gdTwoChain) "a" "b" = true ∧
      "a" ∈ bfsVisits (buildModelGraph false gdTwoChain) ∧
      "b" ∈ bfsVisits (buildModelGraph false gdTwoChain) := by
  decide

/-- Witness for C4 at the built two-asset chain. -/
theorem c4_layout_connections_witness :
    WfIndex (buildModelGraph false gdTwoChain) ∧
      NodesRegistered (buildModelGraph false gdTwoChain) ∧
      ((bfsVisits (buildModelGraph false gdTwoChain)).Nodup ∧
        ∀ y, y ∈ bfsVisits (buildModelGraph false gdTwoChain) ↔
          ReachV (buildModelGraph false gdTwoChain) y) :=
  ⟨by decide, by decide,
    (c4_layout_connections (buildModelGraph false gdTwoChain) (by decide)
        (by decide)).2.2⟩
